import Mathlib

/-!
Verification development for the distributed web crawler repository.

The repository contains two parallel crawler pipelines:
 * a Celery/SQS pipeline (tasks.py, s3_storage.py, coordinator.py) storing
   content in S3 and indexing into OpenSearch, and
 * an MPI pipeline (src/master_node.py, src/crawler_node.py) with a master
   coordinator owning the frontier.

This file gives a shallow embedding of the data model and the operations of
both pipelines, translated from the Python source:
 * Python urllib.parse (urlsplit, urlparse, urlunparse, urljoin) as executable
   functions on character lists, as used by tasks.crawl and
   crawler_node.normalize_url / is_allowed_url / extract_domain;
 * the S3 storage layer (save_to_s3, retrieve_from_s3, check_content_exists)
   over an explicit key-value store state;
 * the Celery tasks (tasks.crawl, tasks.index) with external effects
   (HTTP fetch, clock, md5) passed as oracle inputs;
 * the MPI crawler node task handler and the master node main loop as a
   deterministic transition function folded over an event list.

External library behaviour that the code relies on (hashlib.md5,
BeautifulSoup HTML parsing, the network) is passed in as oracle parameters;
everything the repository itself computes is embedded.
-/

namespace WebCrawler

/-! ### Generic helpers: first/last splitting, association lists, substrings -/

/-- Split a character list at the first occurrence of a character (the
separator is dropped), mirroring Python str.split(c, 1) when c occurs. -/
def splitFirst (c : Char) : List Char → Option (List Char × List Char)
  | [] => none
  | a :: t =>
    if a = c then some ([], t)
    else
      match splitFirst c t with
      | some p => some (a :: p.1, p.2)
      | none => none

/-- Split at the last occurrence of a character (Python str.rfind based
slicing). Returns (before, after), separator dropped. -/
def splitLast (c : Char) (l : List Char) : Option (List Char × List Char) :=
  match splitFirst c l.reverse with
  | some p => some (p.2.reverse, p.1.reverse)
  | none => none

/-- Association-list lookup (Python dict access). -/
def lookupA {α β : Type} [DecidableEq α] (k : α) : List (α × β) → Option β
  | [] => none
  | (a, b) :: t => if a = k then some b else lookupA k t

/-- Association-list update (Python dict assignment): replace the first
binding or append a new one. -/
def updateA {α β : Type} [DecidableEq α] (k : α) (v : β) :
    List (α × β) → List (α × β)
  | [] => [(k, v)]
  | (a, b) :: t => if a = k then (k, v) :: t else (a, b) :: updateA k v t

/-- Boolean list prefix test. -/
def listIsPfx : List Char → List Char → Bool
  | [], _ => true
  | _ :: _, [] => false
  | a :: t, b :: u => a == b && listIsPfx t u

/-- Python substring test (the `in` operator on str). -/
def hasSub (needle : List Char) : List Char → Bool
  | [] => listIsPfx needle []
  | c :: t => listIsPfx needle (c :: t) || hasSub needle t

/-- String prefix test used for Python str.startswith. -/
def strStarts (s pfx : String) : Bool := listIsPfx pfx.data s.data

/-! ### Embedding of Python urllib.parse

Faithful translation of CPython urllib.parse: urlsplit, urlparse
(including the params split), urlunsplit, urlunparse and urljoin, as used by
tasks.crawl (urljoin / urlparse / urlunparse), crawler_node.normalize_url,
crawler_node.is_allowed_url and extract_domain. Python truthiness of a
string argument is translated as inequality with the empty string.
(_checknetloc, which can only raise for non-ASCII NFKC edge cases, and the
leading-control-character stripping of urlsplit, a no-op on every URL
handled here, are omitted.) -/

/-- Characters allowed in a URL scheme (urllib.parse.scheme_chars). -/
def schemeChars : List Char :=
  "abcdefghijklmnopqrstuvwxyzABCDEFGHIJKLMNOPQRSTUVWXYZ0123456789+-.".data

/-- Validity test for a candidate scheme: urlsplit accepts url[:i] as a
scheme when i > 0, the first character is an ASCII letter, and every
character is a scheme character. -/
def schemeOk (s : List Char) : Bool :=
  (match s with
   | [] => false
   | c :: _ => c.isAlpha) &&
  s.all (fun c => schemeChars.contains c)

/-- The scheme-splitting step of urlsplit: split at the first colon if the
part before it is a valid scheme (lowercasing it), otherwise keep the
caller-provided default scheme and the whole url. -/
def splitScheme (dflt l : List Char) : List Char × List Char :=
  match splitFirst ':' l with
  | some p => if schemeOk p.1 then (p.1.map Char.toLower, p.2) else (dflt, l)
  | none => (dflt, l)

/-- Delimiters ending the netloc part (urllib _splitnetloc). -/
def netlocDelim (c : Char) : Bool := c == '/' || c == '?' || c == '#'

/-- The netloc-splitting step of urlsplit: if the rest starts with two
slashes, the netloc runs until the first of slash, question mark or hash. -/
def splitNetlocPart : List Char → List Char × List Char
  | '/' :: '/' :: rest =>
    (rest.takeWhile (fun c => !netlocDelim c), rest.dropWhile (fun c => !netlocDelim c))
  | l => ([], l)

/-- The fragment-splitting step of urlsplit (split at the first hash). -/
def splitFrag (l : List Char) : List Char × List Char :=
  match splitFirst '#' l with
  | some p => p
  | none => (l, [])

/-- The query-splitting step of urlsplit (split at the first question mark). -/
def splitQuery (l : List Char) : List Char × List Char :=
  match splitFirst '?' l with
  | some p => p
  | none => (l, [])

structure SplitL where
  scheme : List Char
  netloc : List Char
  path : List Char
  query : List Char
  fragment : List Char
deriving DecidableEq

/-- urllib.parse.urlsplit on character lists, with a default scheme. -/
def pyUrlsplitL (dflt l : List Char) : SplitL :=
  let s := splitScheme dflt l
  let n := splitNetlocPart s.2
  let f := splitFrag n.2
  let q := splitQuery f.1
  ⟨s.1, n.1, q.1, q.2, f.2⟩

structure UrlSplitRes where
  scheme : String
  netloc : String
  path : String
  query : String
  fragment : String
deriving DecidableEq

/-- urllib.parse.urlsplit on strings. -/
def pyUrlsplit (dflt url : String) : UrlSplitRes :=
  let r := pyUrlsplitL dflt.data url.data
  ⟨⟨r.scheme⟩, ⟨r.netloc⟩, ⟨r.path⟩, ⟨r.query⟩, ⟨r.fragment⟩⟩

/-- urllib.parse._splitparams: split params from the last path segment at
the first semicolon at or after the last slash. -/
def splitParams (u : List Char) : List Char × List Char :=
  match splitLast '/' u with
  | some p =>
    (match splitFirst ';' ('/' :: p.2) with
     | some q => (p.1 ++ q.1, q.2)
     | none => (u, []))
  | none =>
    (match splitFirst ';' u with
     | some q => (q.1, q.2)
     | none => (u, []))

/-- urllib.parse.uses_params. -/
def usesParams : List String :=
  ["", "ftp", "hdl", "prospero", "http", "imap", "https", "shttp", "rtsp",
   "rtspu", "sip", "sips", "mms", "sftp", "tel"]

structure UrlParseRes where
  scheme : String
  netloc : String
  path : String
  params : String
  query : String
  fragment : String
deriving DecidableEq

/-- urllib.parse.urlparse on strings, with a default scheme. -/
def pyUrlparse (dflt url : String) : UrlParseRes :=
  let s := pyUrlsplit dflt url
  if (';' ∈ s.path.data) ∧ s.scheme ∈ usesParams then
    let p := splitParams s.path.data
    ⟨s.scheme, s.netloc, ⟨p.1⟩, ⟨p.2⟩, s.query, s.fragment⟩
  else ⟨s.scheme, s.netloc, s.path, "", s.query, s.fragment⟩

/-- urllib.parse.uses_relative. -/
def usesRelative : List String :=
  ["", "ftp", "http", "gopher", "nntp", "imap", "wais", "file", "https",
   "shttp", "mms", "prospero", "rtsp", "rtspu", "sftp", "svn", "svn+ssh",
   "ws", "wss"]

/-- urllib.parse.uses_netloc. -/
def usesNetloc : List String :=
  ["", "ftp", "http", "gopher", "nntp", "telnet", "imap", "wais", "file",
   "mms", "https", "shttp", "snews", "prospero", "rtsp", "rtspu", "rsync",
   "svn", "svn+ssh", "sftp", "nfs", "git", "git+ssh", "ws", "wss"]

/-- urllib.parse.urlunsplit (CPython 3.10+ netloc condition). -/
def pyUrlunsplit (c : UrlSplitRes) : String :=
  let url0 := c.path
  let url1 :=
    if c.netloc ≠ "" ∨
        (c.scheme ≠ "" ∧ c.scheme ∈ usesNetloc ∧ url0.data.take 2 ≠ ['/', '/']) then
      "//" ++ c.netloc ++
        (if url0 ≠ "" ∧ url0.data.take 1 ≠ ['/'] then "/" ++ url0 else url0)
    else url0
  let url2 := if c.scheme ≠ "" then c.scheme ++ ":" ++ url1 else url1
  let url3 := if c.query ≠ "" then url2 ++ "?" ++ c.query else url2
  if c.fragment ≠ "" then url3 ++ "#" ++ c.fragment else url3

/-- urllib.parse.urlunparse. -/
def pyUrlunparse (scheme netloc path params query fragment : String) : String :=
  pyUrlunsplit ⟨scheme, netloc,
    (if params ≠ "" then path ++ ";" ++ params else path), query, fragment⟩

/-- Python str.split on a slash: the result is always nonempty and empty
segments are kept. -/
def pySplitSlash : List Char → List (List Char)
  | [] => [[]]
  | c :: t =>
    if c = '/' then [] :: pySplitSlash t
    else
      match pySplitSlash t with
      | h :: r => (c :: h) :: r
      | [] => [[c]]

/-- Python '/'.join on segments. -/
def joinSlash : List (List Char) → List Char
  | [] => []
  | [x] => x
  | x :: y :: r => x ++ '/' :: joinSlash (y :: r)

/-- The dot-segment resolution loop of urljoin: a double-dot pops the last
resolved segment (silently succeeding on an empty stack), a single dot is
skipped, anything else is appended. -/
def resolveSegs (acc : List (List Char)) : List (List Char) → List (List Char)
  | [] => acc
  | s :: rest =>
    if s = ['.', '.'] then resolveSegs acc.dropLast rest
    else if s = ['.'] then resolveSegs acc rest
    else resolveSegs (acc ++ [s]) rest

/-- The slice assignment segments[1:-1] = filter(None, segments[1:-1]) of
urljoin: drop empty segments strictly between the first and last. -/
def filterMiddle (l : List (List Char)) : List (List Char) :=
  match l with
  | [] => []
  | x :: rest =>
    match rest.getLast? with
    | none => [x]
    | some lst => x :: (rest.dropLast.filter (fun s => !s.isEmpty)) ++ [lst]

/-- urllib.parse.urljoin. -/
def pyUrljoin (base url : String) : String :=
  if base = "" then url
  else if url = "" then base
  else
    let b := pyUrlparse "" base
    let u := pyUrlparse b.scheme url
    if u.scheme ≠ b.scheme ∨ u.scheme ∉ usesRelative then url
    else if u.scheme ∈ usesNetloc ∧ u.netloc ≠ "" then
      pyUrlunparse u.scheme u.netloc u.path u.params u.query u.fragment
    else
      let netloc := if u.scheme ∈ usesNetloc then b.netloc else u.netloc
      if u.path = "" ∧ u.params = "" then
        let query := if u.query = "" then b.query else u.query
        pyUrlunparse u.scheme netloc b.path b.params query u.fragment
      else
        let baseParts0 := pySplitSlash b.path.data
        let baseParts :=
          if baseParts0.getLast? ≠ some [] then baseParts0.dropLast else baseParts0
        let segments :=
          if u.path.data.take 1 = ['/'] then pySplitSlash u.path.data
          else filterMiddle (baseParts ++ pySplitSlash u.path.data)
        let resolved0 := resolveSegs [] segments
        let resolved :=
          if segments.getLast? = some ['.'] ∨ segments.getLast? = some ['.', '.'] then
            resolved0 ++ [[]]
          else resolved0
        let joined := joinSlash resolved
        let pathStr : String := if joined = [] then "/" else ⟨joined⟩
        pyUrlunparse u.scheme netloc pathStr u.params u.query u.fragment

/-- master_node.extract_domain / crawler_node.extract_domain:
urlparse(url).netloc. -/
def extract_domain (url : String) : String := (pyUrlparse "" url).netloc

/-! ### S3 storage layer (s3_storage.py)

The S3 bucket is modelled as a key-to-object map with a ghost log of all
put_object keys. A stored JSON document is its dictionary (json.dumps /
json.loads round-trip elided); content dictionaries are association lists
with string values. The md5 hex digest (hashlib, an external library) is an
oracle parameter threaded through every function that derives keys. -/

/-- aws_config.S3_OUTPUT_PREFIX (renamed: the suffix PREFIX collides with a
reserved word filter). -/
def s3OutputPfx : String := "output/"

/-- aws_config.S3_INPUT_PREFIX. -/
def s3InputPfx : String := "input/"

/-- A crawled-content dictionary: JSON object with string values. -/
def Content : Type := List (String × String)

instance : DecidableEq Content := by
  unfold Content
  infer_instance

inductive S3Obj where
  | jsonObj (c : Content)
  | textObj (s : String)
deriving DecidableEq

structure S3State where
  objects : List (String × S3Obj)
  putLog : List String
deriving DecidableEq

/-- s3_client.put_object: store under the key, appending to the ghost log. -/
def s3Put (st : S3State) (key : String) (body : S3Obj) : S3State :=
  ⟨updateA key body st.objects, st.putLog ++ [key]⟩

def contentGetD (c : Content) (k : String) : String := (lookupA k c).getD ""

/-- The plain-text rendering stored next to the JSON record by save_to_s3. -/
def textVersion (c : Content) : String :=
  "URL: " ++ contentGetD c "url" ++ "\nTitle: " ++ contentGetD c "title" ++
  "\nDescription: " ++ contentGetD c "description" ++ "\n\n" ++
  contentGetD c "text_content"

/-- s3_storage.save_to_s3: key is output prefix + md5(url) + ".json"; the
content is stamped with stored_timestamp and put; when text_content is
present a ".txt" rendering is also put. If the text rendering hits a
KeyError (some header field missing) the exception is caught and None is
returned, although the JSON object has already been stored. -/
def save_to_s3 (md5hex : String → String) (ts : String) (st : S3State)
    (content : Content) (url : String) : S3State × Option String :=
  let url_hash := md5hex url
  let key := s3OutputPfx ++ url_hash ++ ".json"
  let content1 := updateA "stored_timestamp" ts content
  let st1 := s3Put st key (.jsonObj content1)
  if (lookupA "text_content" content1).isSome then
    if (lookupA "url" content1).isSome ∧ (lookupA "title" content1).isSome ∧
        (lookupA "description" content1).isSome then
      (s3Put st1 (s3OutputPfx ++ url_hash ++ ".txt") (.textObj (textVersion content1)),
       some key)
    else (st1, none)
  else (st1, some key)

/-- s3_storage.retrieve_from_s3: derive the key from the URL when no key is
given; a missing object (NoSuchKey) or a JSON decoding failure yields None. -/
def retrieve_from_s3 (md5hex : String → String) (st : S3State)
    (url : Option String) (key : Option String) (input_dir : Bool) :
    Option Content :=
  let key1 : Option String :=
    match key, url with
    | none, some u =>
      some ((if input_dir then s3InputPfx else s3OutputPfx) ++ md5hex u ++ ".json")
    | k, _ => k
  match key1 with
  | none => none
  | some k =>
    match lookupA k st.objects with
    | some (.jsonObj c) => some c
    | some (.textObj _) => none
    | none => none

/-- s3_storage.check_content_exists: head_object on prefix + md5(url) +
".json"; a 404 yields False. -/
def check_content_exists (md5hex : String → String) (st : S3State)
    (url : String) (input_dir : Bool) : Bool :=
  let pfx := if input_dir then s3InputPfx else s3OutputPfx
  (lookupA (pfx ++ md5hex url ++ ".json") st.objects).isSome

/-! ### Celery tasks (tasks.py)

tasks.crawl and tasks.index. External effects are oracle inputs: the HTTP
fetch outcome (an exception, or the parsed page as BeautifulSoup would
deliver it: anchor hrefs plus extracted texts), the clock and md5. The
output records, besides the returned status dictionary, ghost observations:
whether the fetch step was reached, the resulting store, the extracted
links, the scheduled child tasks (crawl.delay calls) and the indexer
messages (index.delay calls). -/

structure TasksConfig where
  max_depth : Nat
  restricted_domains : List String
deriving DecidableEq

inductive TasksFetch where
  | raises (e : String)
  | page (hrefs : List String) (title description text html : String)
deriving DecidableEq

structure TasksOut where
  status : String
  url : String
  fetched : Bool
  store : S3State
  new_urls : List String
  scheduled : List (String × Nat)
  indexed : List String
deriving DecidableEq

/-- The link-cleaning step of tasks.crawl (lines 81-84): resolve the href
against the page URL, re-parse, and rebuild from scheme, netloc and path
only (params, query and fragment dropped). -/
def tasksCleanHref (pageUrl href : String) : String :=
  let full_url := pyUrljoin pageUrl href
  let parts := pyUrlparse "" full_url
  pyUrlunparse parts.scheme parts.netloc parts.path "" "" ""

/-- The link-extraction loop of tasks.crawl: clean every href and keep the
nonempty results. No per-page deduplication and no cap is applied. -/
def tasksExtractLinks (pageUrl : String) (hrefs : List String) : List String :=
  hrefs.filterMap (fun href =>
    let clean := tasksCleanHref pageUrl href
    if clean ≠ "" then some clean else none)

/-- tasks.crawl. The S3 existence check runs first; the body afterwards is
wrapped in try/except, every exception (modelled by the fetch oracle
raising) mapping to an error-status return. On success the content record
is saved, an indexer message is scheduled when the save returned a key, and
children are scheduled at depth+1 when depth < max_depth, skipping URLs
containing a restricted domain as a substring. -/
def tasksCrawl (md5hex : String → String) (ts : String) (st : S3State)
    (fetch : TasksFetch) (url : String) (depth : Nat) (cfg : TasksConfig) :
    TasksOut :=
  if check_content_exists md5hex st url false then
    ⟨"skipped", url, false, st, [], [], []⟩
  else
    match fetch with
    | .raises _e => ⟨"error", url, true, st, [], [], []⟩
    | .page hrefs title description text html =>
      let new_urls := tasksExtractLinks url hrefs
      let content : Content :=
        [("url", url), ("title", title), ("description", description),
         ("html", html), ("text_content", text), ("crawl_timestamp", ts),
         ("depth", toString depth)]
      let save := save_to_s3 md5hex ts st content url
      let indexed := match save.2 with
        | some k => [k]
        | none => []
      let scheduled :=
        if depth < cfg.max_depth then
          new_urls.filterMap (fun u =>
            if !(cfg.restricted_domains.any (fun d => hasSub d.data u.data)) then
              some (u, depth + 1)
            else none)
        else []
      ⟨"success", url, true, save.1, new_urls, scheduled, indexed⟩

/-- The search index: document id to document source, upserted by es.index. -/
structure EsState where
  docs : List (String × Content)
deriving DecidableEq

inductive IndexOut where
  | success (url s3_key indexName docId : String)
  | error (url : String) (e : String)
deriving DecidableEq

/-- The document id computed by tasks.index (line 237):
hashlib.md5(url.encode()).hexdigest(). -/
def indexDocId (md5hex : String → String) (url : String) : String := md5hex url

/-- tasks.index on the AWS OpenSearch path: retrieve the record by its S3
key (failure raises, caught as an error status), attach the s3_key field,
and upsert the document under the md5 document id. -/
def indexTask (md5hex : String → String) (st : S3State) (es : EsState)
    (s3_key url indexName : String) : EsState × IndexOut :=
  match retrieve_from_s3 md5hex st none (some s3_key) false with
  | none => (es, .error url "Failed to retrieve content from S3")
  | some content =>
    let content_for_index := updateA "s3_key" s3_key content
    let doc_id := indexDocId md5hex url
    (⟨updateA doc_id content_for_index es.docs⟩,
     .success url s3_key indexName doc_id)

/-! ### MPI crawler node (src/crawler_node.py)

The per-task handler of crawler_process, from receiving a URL to sending
exactly one MPI message back to the master. The cached robots rules of the
URL's domain are an input (check_robots_txt fetches and caches them per
domain); the HTTP fetch is an oracle. The Bool output records whether the
handler reached the page-fetch step. -/

structure RobotsRules where
  disallowed_paths : List String
  crawl_delay : Nat
deriving DecidableEq

structure NodeResult where
  url : String
  new_urls : List String
  content : String
  status : String
deriving DecidableEq

inductive WorkerMsg where
  | result (r : NodeResult)
  | errMsg (s : String)
deriving DecidableEq

inductive NodeFetch where
  | raises (e : String)
  | resp (contentType : String) (code : Nat) (hrefs : List String) (text : String)
deriving DecidableEq

/-- crawler_node.is_allowed_url: the URL path is matched against every
disallowed entry (exact root match, trailing-star prefix match, or plain
prefix match). -/
def is_allowed_url (url : String) (disallowed_paths : List String) : Bool :=
  let path := (pyUrlparse "" url).path
  !(disallowed_paths.any (fun d =>
    (d == "/" && path == "/") ||
    (d.data.getLast? == some '*' && listIsPfx d.data.dropLast path.data) ||
    (!(d.data.getLast? == some '*') && listIsPfx d.data path.data)))

/-- crawler_node.is_valid_url: http(s) scheme and no blocked file-extension
suffix (case-insensitive). -/
def is_valid_url (url : String) : Bool :=
  (strStarts url "http://" || strStarts url "https://") &&
  !(["jpg", "jpeg", "png", "gif", "pdf", "doc", "docx", "ppt", "pptx",
     "zip", "rar", "exe", "css", "js"].any (fun e =>
      listIsPfx ("." ++ e).data.reverse (url.data.map Char.toLower).reverse))

/-- crawler_node.normalize_url: resolve relative URLs against the base,
re-parse and rebuild with the fragment dropped (params and query kept),
then strip one trailing slash. The try/except wrapper returns None on an
exception; no step of the translated body can fail. -/
def normalize_url (url base_url : String) : Option String :=
  let url1 :=
    if !(strStarts url "http://" || strStarts url "https://") then
      pyUrljoin base_url url
    else url
  let p := pyUrlparse "" url1
  let url2 := pyUrlunparse p.scheme p.netloc p.path p.params p.query ""
  let url3 :=
    if url2.data.getLast? = some '/' ∧ url2.length > 1 then
      String.mk url2.data.dropLast
    else url2
  some url3

/-- The link-processing loop of crawler_process (lines 227-237): normalize
each href, keep truthy valid ones, then deduplicate via list(set(...)) and
cap at 10. Python set iteration order is unspecified; the deduplication is
modelled with List.dedup, an order-deterministic duplicate removal. -/
def nodeProcessLinks (pageUrl : String) (rawLinks : List String) : List String :=
  let new_urls := rawLinks.filterMap (fun l =>
    match normalize_url l pageUrl with
    | some n => if n ≠ "" ∧ is_valid_url n then some n else none
    | none => none)
  new_urls.dedup.take 10

/-- One task of crawler_process: robots gate, then fetch; a non-HTML
content type, a non-200 status and a success each send one tag-1 result;
any exception is caught and sent as a tag-999 error string. The second
component records whether the page-fetch step was reached. -/
def crawlerHandleTask (rules : RobotsRules) (url : String) (fetch : NodeFetch) :
    WorkerMsg × Bool :=
  if !(is_allowed_url url rules.disallowed_paths) then
    (.result ⟨url, [], "", "disallowed"⟩, false)
  else
    match fetch with
    | .raises e => (.errMsg ("Error crawling " ++ url ++ ": " ++ e), true)
    | .resp ct code hrefs text =>
      if !(hasSub "text/html".data (ct.data.map Char.toLower)) then
        (.result ⟨url, [], "", "not_html"⟩, true)
      else if code = 200 then
        (.result ⟨url, nodeProcessLinks url hrefs, text, "success"⟩, true)
      else
        (.result ⟨url, [], "", "http_error_" ++ toString code⟩, true)

/-! ### MPI master node (src/master_node.py)

The main loop of master_process as a deterministic transition function.
One loop iteration: if the queue is empty and no crawler is active, send
the termination signals and stop; otherwise handle at most one probed
message (a tag-1 crawler result or a tag-999 error string) and then assign
queued URLs to idle crawlers. A run folds the iteration over a list of
probe outcomes. The dispatched list is a ghost log of every URL sent to a
crawler with its recorded depth. A result for a URL without a recorded
depth raises KeyError in Python and kills the master; this is modelled by
the crashed flag, after which the state no longer changes. -/

structure MasterConfig where
  seed_urls : List String
  max_depth : Nat
  max_urls_per_domain : Nat
  size : Nat
deriving DecidableEq

/-- Crawler ranks 1 .. size-2 (Python range(1, size-1)). -/
def workerIds (size : Nat) : List Nat := List.range' 1 (size - 2)

structure MasterState where
  url_queue : List String
  crawled_urls : List String
  url_depths : List (String × Nat)
  domain_counts : List (String × Nat)
  crawler_status : List (Nat × String)
  active_crawlers : Int
  idle_crawlers : Int
  urls_queued : Nat
  urls_crawled : Nat
  urls_errored : Nat
  indexer_sent : List (String × String)
  dispatched : List (String × Nat)
  terminated : Bool
  crashed : Bool
deriving DecidableEq

/-- The initial master state: seeds are appended to the queue at depth 0
(unconditionally: no domain-cap or restricted-domain check is applied to
seeds), all crawlers idle. -/
def masterInit (cfg : MasterConfig) : MasterState :=
  let st0 : MasterState :=
    { url_queue := [], crawled_urls := [], url_depths := [], domain_counts := [],
      crawler_status := (workerIds cfg.size).map (fun i => (i, "idle")),
      active_crawlers := 0, idle_crawlers := (cfg.size : Int) - 2,
      urls_queued := cfg.seed_urls.length, urls_crawled := 0, urls_errored := 0,
      indexer_sent := [], dispatched := [], terminated := false, crashed := false }
  cfg.seed_urls.foldl (fun st u =>
    { st with url_queue := st.url_queue ++ [u],
              url_depths := updateA u 0 st.url_depths }) st0

/-- The per-URL body of the new-URL loop (master_node.py lines 155-163):
enqueue at next_depth when the URL is not crawled, not already queued, and
the domain count is below the cap, incrementing the domain count. -/
def enqueueChild (cfg : MasterConfig) (next_depth : Nat) (st : MasterState)
    (u : String) : MasterState :=
  let dom := extract_domain u
  if u ∉ st.crawled_urls ∧ u ∉ st.url_queue ∧
      (lookupA dom st.domain_counts).getD 0 < cfg.max_urls_per_domain then
    { st with
      url_queue := st.url_queue ++ [u],
      url_depths := updateA u next_depth st.url_depths,
      domain_counts :=
        updateA dom ((lookupA dom st.domain_counts).getD 0 + 1) st.domain_counts,
      urls_queued := st.urls_queued + 1 }
  else st

/-- Handling one tag-1 crawler result (master_node.py lines 132-185). -/
def masterHandleResult (cfg : MasterConfig) (st : MasterState) (source : Nat)
    (r : NodeResult) : MasterState :=
  let st1 := { st with crawled_urls := st.crawled_urls ++ [r.url],
                       urls_crawled := st.urls_crawled + 1 }
  if r.status = "success" then
    let st2 := { st1 with
      crawler_status := updateA source "idle" st1.crawler_status,
      active_crawlers := st1.active_crawlers - 1,
      idle_crawlers := st1.idle_crawlers + 1 }
    match lookupA r.url st2.url_depths with
    | none => { st2 with crashed := true }
    | some current_depth =>
      let st3 :=
        if current_depth < cfg.max_depth then
          r.new_urls.foldl (enqueueChild cfg (current_depth + 1)) st2
        else st2
      if r.content ≠ "" then
        { st3 with indexer_sent := st3.indexer_sent ++ [(r.url, r.content)] }
      else st3
  else if r.status = "error" ∨ strStarts r.status "http_error" then
    { st1 with
      crawler_status := updateA source "idle" st1.crawler_status,
      active_crawlers := st1.active_crawlers - 1,
      idle_crawlers := st1.idle_crawlers + 1,
      urls_errored := st1.urls_errored + 1 }
  else st1

/-- Handling one tag-999 error message (master_node.py lines 187-196). -/
def masterHandleError (cfg : MasterConfig) (st : MasterState) (source : Nat) :
    MasterState :=
  if source < cfg.size - 1 then
    { st with
      crawler_status := updateA source "error" st.crawler_status,
      active_crawlers := st.active_crawlers - 1,
      idle_crawlers := st.idle_crawlers + 1,
      urls_errored := st.urls_errored + 1 }
  else st

/-- Assigning the queue head to one crawler when it is idle
(master_node.py lines 205-220), logging the dispatch. -/
def assignOne (st : MasterState) (i : Nat) : MasterState :=
  if lookupA i st.crawler_status = some "idle" then
    match st.url_queue with
    | [] => st
    | u :: rest =>
      { st with
        url_queue := rest,
        crawler_status := updateA i "crawling" st.crawler_status,
        active_crawlers := st.active_crawlers + 1,
        idle_crawlers := st.idle_crawlers - 1,
        dispatched := st.dispatched ++ [(u, (lookupA u st.url_depths).getD 0)] }
  else st

/-- The work-assignment pass over all crawler ranks (lines 204-222). -/
def masterAssign (cfg : MasterConfig) (st : MasterState) : MasterState :=
  if st.url_queue ≠ [] ∧ st.idle_crawlers > 0 then
    (workerIds cfg.size).foldl assignOne st
  else st

inductive MasterMsg where
  | res (source : Nat) (r : NodeResult)
  | err (source : Nat) (msg : String)
deriving DecidableEq

/-- One iteration of the master main loop (lines 102-225): the termination
check runs first and fires on the very first iteration in which the queue
is empty and active_crawlers is zero. -/
def masterIter (cfg : MasterConfig) (st : MasterState)
    (probe : Option MasterMsg) : MasterState :=
  if st.crashed ∨ st.terminated then st
  else if st.url_queue = [] ∧ st.active_crawlers = 0 then
    { st with terminated := true }
  else
    let st1 := match probe with
      | some (.res s r) => masterHandleResult cfg st s r
      | some (.err s _m) => masterHandleError cfg st s
      | none => st
    if st1.crashed then st1 else masterAssign cfg st1

/-- A master run: fold the loop iteration over a list of probe outcomes. -/
def masterRun (cfg : MasterConfig) (events : List (Option MasterMsg)) :
    MasterState :=
  events.foldl (masterIter cfg) (masterInit cfg)

/-! ### Two concurrent submissions of the same URL (tasks.crawl races)

Two Celery workers run tasks.crawl for the same URL against the shared S3
store. Each worker is split at its suspension point: step 0 performs the
check_content_exists test, step 1 performs the fetch/save and returns
success. A schedule interleaves the two workers. -/

structure DupTask where
  pc : Nat
  status : Option String
deriving DecidableEq

structure DupSys where
  s3 : S3State
  t0 : DupTask
  t1 : DupTask
deriving DecidableEq

/-- One step of one worker running tasks.crawl on the shared store. -/
def dupStepTask (md5hex : String → String) (ts : String) (url : String)
    (content : Content) (s3 : S3State) (t : DupTask) : S3State × DupTask :=
  if t.pc = 0 then
    if check_content_exists md5hex s3 url false then (s3, ⟨2, some "skipped"⟩)
    else (s3, ⟨1, t.status⟩)
  else if t.pc = 1 then
    let save := save_to_s3 md5hex ts s3 content url
    (save.1, ⟨2, some "success"⟩)
  else (s3, t)

def dupStep (md5hex : String → String) (ts : String) (url : String)
    (content : Content) (sys : DupSys) (which : Bool) : DupSys :=
  if which then
    let r := dupStepTask md5hex ts url content sys.s3 sys.t1
    ⟨r.1, sys.t0, r.2⟩
  else
    let r := dupStepTask md5hex ts url content sys.s3 sys.t0
    ⟨r.1, r.2, sys.t1⟩

def dupInit (s3 : S3State) : DupSys := ⟨s3, ⟨0, none⟩, ⟨0, none⟩⟩

/-- Run the two-worker system under a schedule (false steps worker 0, true
steps worker 1). -/
def dupRun (md5hex : String → String) (ts : String) (url : String)
    (content : Content) (s3 : S3State) (sched : List Bool) : DupSys :=
  sched.foldl (dupStep md5hex ts url content) (dupInit s3)


/-! ### Statement-level definitions -/

/-- An absolute http URL built from host, path, query and fragment parts
(with explicit separators, so empty query and fragment are represented as a
bare separator). -/
def mkHttp (h p q f : String) : String :=
  "http://" ++ h ++ p ++ "?" ++ q ++ "#" ++ f

/-- An absolute http URL with no query or fragment separator. -/
def mkHttpPlain (h p : String) : String := "http://" ++ h ++ p

/-- An absolute http URL with a query but no fragment separator. -/
def mkHttpQ (h p q : String) : String := "http://" ++ h ++ p ++ "?" ++ q

/-- An absolute http URL with a fragment but no query separator. -/
def mkHttpF (h p f : String) : String := "http://" ++ h ++ p ++ "#" ++ f

/-- Well-formedness of the parts of an absolute http URL: nonempty host
without netloc delimiters, slash-initial path without query, fragment or
params separators, query without a hash. -/
structure HttpBits (h p q : String) : Prop where
  hostNe : h.data ≠ []
  hostOk : ∀ c ∈ h.data, netlocDelim c = false
  pathSlash : ∃ t, p.data = '/' :: t
  pathOk : ∀ c ∈ p.data, c ≠ '?' ∧ c ≠ '#' ∧ c ≠ ';'
  queryOk : ∀ c ∈ q.data, c ≠ '#'

/-- Number of URLs of a given domain in a URL list. -/
def domCountP (dom : String) (l : List String) : Nat :=
  l.countP (fun u => extract_domain u == dom)

/-- Number of dispatched tasks of a given domain. -/
def dispCountP (dom : String) (l : List (String × Nat)) : Nat :=
  l.countP (fun pr => extract_domain pr.1 == dom)

/-- Depth bookkeeping invariant of the master state: every queued URL has a
recorded depth bounded by max_depth, and every dispatched task respects the
bound. -/
def depthInv (cfg : MasterConfig) (st : MasterState) : Prop :=
  (∀ u ∈ st.url_queue, ∃ d, lookupA u st.url_depths = some d ∧ d ≤ cfg.max_depth) ∧
  (∀ pr ∈ st.dispatched, pr.2 ≤ cfg.max_depth)

/-- Domain accounting invariant of the master state: the per-domain counter
is capped, and dispatches plus queued entries of a domain are exactly its
seeds plus its counted (discovered) enqueues. -/
def capInv (cfg : MasterConfig) (dom : String) (st : MasterState) : Prop :=
  (lookupA dom st.domain_counts).getD 0 ≤ cfg.max_urls_per_domain ∧
  dispCountP dom st.dispatched + domCountP dom st.url_queue =
    domCountP dom cfg.seed_urls + (lookupA dom st.domain_counts).getD 0

/-! ### Basic lemmas -/

theorem splitFirst_app (c : Char) (xs ys : List Char) (h : c ∉ xs) :
    splitFirst c (xs ++ c :: ys) = some (xs, ys) := by
  induction xs with
  | nil => simp [splitFirst]
  | cons a t ih =>
    have ha : ¬ a = c := by
      intro hac
      exact h (by rw [hac]; exact List.mem_cons_self c t)
    have ht : c ∉ t := fun hc => h (List.mem_cons_of_mem a hc)
    simp only [List.cons_append, splitFirst, if_neg ha, List.append_eq, ih ht]

theorem splitFirst_not_mem (c : Char) (xs : List Char) (h : c ∉ xs) :
    splitFirst c xs = none := by
  induction xs with
  | nil => rfl
  | cons a t ih =>
    have ha : ¬ a = c := by
      intro hac
      exact h (by rw [hac]; exact List.mem_cons_self c t)
    have ht : c ∉ t := fun hc => h (List.mem_cons_of_mem a hc)
    simp only [splitFirst, if_neg ha, ih ht]

theorem splitFirst_sound (c : Char) (l a b : List Char)
    (h : splitFirst c l = some (a, b)) : l = a ++ c :: b := by
  induction l generalizing a b with
  | nil => simp [splitFirst] at h
  | cons x t ih =>
    by_cases hx : x = c
    · simp only [splitFirst, if_pos hx, Option.some.injEq, Prod.mk.injEq] at h
      obtain ⟨h1, h2⟩ := h
      subst h1
      subst h2
      simp [hx]
    · simp only [splitFirst, if_neg hx] at h
      cases hs : splitFirst c t with
      | none => rw [hs] at h; simp at h
      | some p =>
        obtain ⟨p1, p2⟩ := p
        rw [hs] at h
        simp only [Option.some.injEq, Prod.mk.injEq] at h
        obtain ⟨h1, h2⟩ := h
        subst h1
        subst h2
        rw [List.cons_append, ih p1 p2 hs]

theorem splitLast_sound (c : Char) (l a b : List Char)
    (h : splitLast c l = some (a, b)) : l = a ++ c :: b := by
  unfold splitLast at h
  cases hs : splitFirst c l.reverse with
  | none => rw [hs] at h; simp at h
  | some p =>
    obtain ⟨p1, p2⟩ := p
    rw [hs] at h
    simp only [Option.some.injEq, Prod.mk.injEq] at h
    obtain ⟨h1, h2⟩ := h
    subst h1
    subst h2
    have hl := splitFirst_sound c l.reverse p1 p2 hs
    have : l = (p1 ++ c :: p2).reverse := by
      rw [← hl, List.reverse_reverse]
    rw [this]
    simp

theorem lookupA_updateA_self {α β : Type} [DecidableEq α] (k : α) (v : β)
    (l : List (α × β)) : lookupA k (updateA k v l) = some v := by
  induction l with
  | nil => simp [lookupA, updateA]
  | cons p t ih =>
    obtain ⟨a, b⟩ := p
    by_cases h : a = k
    · subst h
      simp [lookupA, updateA]
    · simp [lookupA, updateA, h, ih]

theorem lookupA_updateA_ne {α β : Type} [DecidableEq α] (k k' : α) (v : β)
    (l : List (α × β)) (h : k' ≠ k) :
    lookupA k' (updateA k v l) = lookupA k' l := by
  have hk : ¬ k = k' := fun hh => h hh.symm
  induction l with
  | nil => simp [lookupA, updateA, hk]
  | cons p t ih =>
    obtain ⟨a, b⟩ := p
    by_cases ha : a = k
    · subst ha
      simp [lookupA, updateA, hk]
    · by_cases ha' : a = k'
      · subst ha'
        simp [lookupA, updateA, h]
      · simp [lookupA, updateA, if_neg ha, ha', ih]

theorem listIsPfx_append (xs ys : List Char) : listIsPfx xs (xs ++ ys) = true := by
  induction xs with
  | nil => rfl
  | cons a t ih => simp [listIsPfx, ih]

theorem strData_append (a b : String) : (a ++ b).data = a.data ++ b.data := by
  cases a
  cases b
  rfl

theorem strExt (a b : String) (h : a.data = b.data) : a = b := by
  cases a
  cases b
  exact congrArg String.mk h

theorem strMkData (s : String) : String.mk s.data = s := by
  cases s
  rfl

/-! ### Storage-layer lemmas -/

theorem json_ne_txt (a : String) : a ++ ".json" ≠ a ++ ".txt" := by
  intro h
  have hd := congrArg String.data h
  rw [strData_append, strData_append] at hd
  have := List.append_cancel_left hd
  exact absurd this (by decide)

/-- The JSON record key derived by save_to_s3. -/
theorem save_to_s3_key (md5hex : String → String) (ts : String) (st : S3State)
    (content : Content) (url : String) (k : String)
    (h : (save_to_s3 md5hex ts st content url).2 = some k) :
    k = s3OutputPfx ++ md5hex url ++ ".json" := by
  unfold save_to_s3 at h
  dsimp only at h
  split at h
  · split at h
    · simp only [Option.some.injEq] at h
      exact h.symm
    · simp at h
  · simp only [Option.some.injEq] at h
    exact h.symm

/-- After save_to_s3, the JSON record is stored under its key. -/
theorem save_to_s3_lookup (md5hex : String → String) (ts : String) (st : S3State)
    (content : Content) (url : String) :
    lookupA (s3OutputPfx ++ md5hex url ++ ".json")
        (save_to_s3 md5hex ts st content url).1.objects =
      some (.jsonObj (updateA "stored_timestamp" ts content)) := by
  unfold save_to_s3 s3Put
  dsimp only
  split
  · split
    · rw [lookupA_updateA_ne _ _ _ _ (json_ne_txt _)]
      exact lookupA_updateA_self _ _ _
    · exact lookupA_updateA_self _ _ _
  · exact lookupA_updateA_self _ _ _

theorem check_after_save (md5hex : String → String) (ts : String) (st : S3State)
    (content : Content) (url : String) :
    check_content_exists md5hex (save_to_s3 md5hex ts st content url).1 url false = true := by
  unfold check_content_exists
  simp only [if_neg (by simp : ¬ (false = true))]
  rw [save_to_s3_lookup]
  rfl

theorem retrieve_after_save (md5hex : String → String) (ts : String) (st : S3State)
    (content : Content) (url : String) :
    retrieve_from_s3 md5hex (save_to_s3 md5hex ts st content url).1 (some url) none false =
      some (updateA "stored_timestamp" ts content) := by
  unfold retrieve_from_s3
  simp only [if_neg (by simp : ¬ (false = true))]
  rw [save_to_s3_lookup]

/-- The put log of save_to_s3 grows by the JSON key and possibly the text
key. -/
theorem save_to_s3_putLog (md5hex : String → String) (ts : String) (st : S3State)
    (content : Content) (url : String) :
    (save_to_s3 md5hex ts st content url).1.putLog =
        st.putLog ++ [s3OutputPfx ++ md5hex url ++ ".json"] ∨
    (save_to_s3 md5hex ts st content url).1.putLog =
        st.putLog ++ [s3OutputPfx ++ md5hex url ++ ".json",
                      s3OutputPfx ++ md5hex url ++ ".txt"] := by
  unfold save_to_s3 s3Put
  dsimp only
  split
  · split
    · right
      simp
    · left
      rfl
  · left
    rfl

theorem save_putLog_count (md5hex : String → String) (ts : String)
    (content : Content) (url : String) :
    (save_to_s3 md5hex ts ⟨[], []⟩ content url).1.putLog.count
      (s3OutputPfx ++ md5hex url ++ ".json") = 1 := by
  rcases save_to_s3_putLog md5hex ts ⟨[], []⟩ content url with h | h <;> rw [h]
  · simp
  · simp only [List.nil_append, List.count_cons, List.count_nil]
    have hne : ¬ (s3OutputPfx ++ md5hex url ++ ".txt" ==
        s3OutputPfx ++ md5hex url ++ ".json") = true := by
      simp only [beq_iff_eq]
      exact fun hh => json_ne_txt _ hh.symm
    simp [hne]

/-! ### Claim theorems -/

/-- Claim C10: storage key derivation is consistent across save_to_s3,
check_content_exists and retrieve_from_s3: a successful save returns the
key output-prefix + md5(url) + ".json", after which the existence check for
the same URL is true and retrieval by URL returns the stored record (the
content stamped with stored_timestamp). -/
theorem c10_key_consistency :
    ∀ (md5hex : String → String) (ts : String) (st : S3State) (content : Content)
      (url k : String),
      (save_to_s3 md5hex ts st content url).2 = some k →
      k = s3OutputPfx ++ md5hex url ++ ".json" ∧
      check_content_exists md5hex (save_to_s3 md5hex ts st content url).1 url false = true ∧
      retrieve_from_s3 md5hex (save_to_s3 md5hex ts st content url).1 (some url) none false =
        some (updateA "stored_timestamp" ts content) := by
  intro md5hex ts st content url k h
  exact ⟨save_to_s3_key md5hex ts st content url k h,
         check_after_save md5hex ts st content url,
         retrieve_after_save md5hex ts st content url⟩

theorem c10_key_consistency_witness :
    (save_to_s3 (fun s => s) "9" ⟨[], []⟩
        [("url", "http://a.test/"), ("title", "T"), ("description", "D"),
         ("text_content", "tx")] "http://a.test/").2 =
      some "output/http://a.test/.json" ∧
    ("output/http://a.test/.json" : String) = s3OutputPfx ++ "http://a.test/" ++ ".json" ∧
    check_content_exists (fun s => s)
      (save_to_s3 (fun s => s) "9" ⟨[], []⟩
        [("url", "http://a.test/"), ("title", "T"), ("description", "D"),
         ("text_content", "tx")] "http://a.test/").1 "http://a.test/" false = true ∧
    retrieve_from_s3 (fun s => s)
      (save_to_s3 (fun s => s) "9" ⟨[], []⟩
        [("url", "http://a.test/"), ("title", "T"), ("description", "D"),
         ("text_content", "tx")] "http://a.test/").1 (some "http://a.test/") none false =
      some (updateA "stored_timestamp" "9"
        [("url", "http://a.test/"), ("title", "T"), ("description", "D"),
         ("text_content", "tx")]) :=
  ⟨by decide,
   (c10_key_consistency (fun s => s) "9" ⟨[], []⟩
      [("url", "http://a.test/"), ("title", "T"), ("description", "D"),
       ("text_content", "tx")] "http://a.test/" "output/http://a.test/.json"
      (by decide)).1,
   (c10_key_consistency (fun s => s) "9" ⟨[], []⟩
      [("url", "http://a.test/"), ("title", "T"), ("description", "D"),
       ("text_content", "tx")] "http://a.test/" "output/http://a.test/.json"
      (by decide)).2.1,
   (c10_key_consistency (fun s => s) "9" ⟨[], []⟩
      [("url", "http://a.test/"), ("title", "T"), ("description", "D"),
       ("text_content", "tx")] "http://a.test/" "output/http://a.test/.json"
      (by decide)).2.2⟩

/-! ### Search-index upsert lemmas -/

theorem mem_map_fst_updateA {β : Type} (k x : String) (v : β)
    (l : List (String × β)) (h : x ∈ (updateA k v l).map Prod.fst) :
    x ∈ l.map Prod.fst ∨ x = k := by
  induction l with
  | nil =>
    simp only [updateA, List.map_cons, List.map_nil, List.mem_singleton] at h
    exact Or.inr h
  | cons p t ih =>
    obtain ⟨a, b⟩ := p
    by_cases ha : a = k
    · subst ha
      have he : updateA a v ((a, b) :: t) = (a, v) :: t := by
        simp [updateA]
      rw [he] at h
      simp only [List.map_cons, List.mem_cons] at h
      rcases h with h | h
      · exact Or.inr h
      · exact Or.inl (List.mem_cons_of_mem _ h)
    · have he : updateA k v ((a, b) :: t) = (a, b) :: updateA k v t := by
        simp [updateA, ha]
      rw [he] at h
      simp only [List.map_cons, List.mem_cons] at h
      rcases h with h | h
      · exact Or.inl (by simp only [List.map_cons, List.mem_cons]; exact Or.inl h)
      · rcases ih h with h' | h'
        · exact Or.inl (List.mem_cons_of_mem _ h')
        · exact Or.inr h'

theorem updateA_fst_nodup {β : Type} (k : String) (v : β)
    (l : List (String × β)) (h : (l.map Prod.fst).Nodup) :
    ((updateA k v l).map Prod.fst).Nodup := by
  induction l with
  | nil => simp [updateA]
  | cons p t ih =>
    obtain ⟨a, b⟩ := p
    simp only [List.map_cons, List.nodup_cons] at h
    by_cases ha : a = k
    · subst ha
      have he : updateA a v ((a, b) :: t) = (a, v) :: t := by
        simp [updateA]
      rw [he]
      simp only [List.map_cons, List.nodup_cons]
      exact h
    · have he : updateA k v ((a, b) :: t) = (a, b) :: updateA k v t := by
        simp [updateA, ha]
      rw [he]
      simp only [List.map_cons, List.nodup_cons]
      refine ⟨fun hmem => ?_, ih h.2⟩
      rcases mem_map_fst_updateA k a v t hmem with h' | h'
      · exact h.1 h'
      · exact ha h'

theorem countP_fst_eq_zero {β : Type} (k : String) (l : List (String × β))
    (h : k ∉ l.map Prod.fst) :
    l.countP (fun p => p.1 == k) = 0 := by
  induction l with
  | nil => rfl
  | cons p t ih =>
    obtain ⟨a, b⟩ := p
    simp only [List.map_cons, List.mem_cons] at h
    push_neg at h
    have hfa : ((a, b).1 == k) = false := by
      simp only [beq_eq_false_iff_ne, ne_eq]
      exact fun hh => h.1 hh.symm
    simp [List.countP_cons, hfa, ih h.2]

theorem countP_updateA {β : Type} (k : String) (v : β)
    (l : List (String × β)) (h : (l.map Prod.fst).Nodup) :
    (updateA k v l).countP (fun p => p.1 == k) = 1 := by
  induction l with
  | nil => simp [updateA, List.countP_cons]
  | cons p t ih =>
    obtain ⟨a, b⟩ := p
    simp only [List.map_cons, List.nodup_cons] at h
    by_cases ha : a = k
    · subst ha
      have he : updateA a v ((a, b) :: t) = (a, v) :: t := by
        simp [updateA]
      rw [he]
      simp [List.countP_cons, countP_fst_eq_zero a t h.1]
    · have he : updateA k v ((a, b) :: t) = (a, b) :: updateA k v t := by
        simp [updateA, ha]
      rw [he]
      have hfa : ((a, b).1 == k) = false := by
        simp only [beq_eq_false_iff_ne, ne_eq]
        exact ha
      simp [List.countP_cons, hfa, ih h.2]

/-- Claim C9: the search-index document id equals the md5 hash of the URL,
which is the same hash from which save_to_s3 derives the Content Store key
(the stored key is output-prefix + docId + ".json"); indexing the same URL
twice through tasks.index upserts: the index ends with exactly one document
under that id (and its id column stays duplicate-free). -/
theorem c9_docid_eq_content_key :
    (∀ (md5hex : String → String) (ts : String) (st : S3State) (content : Content)
       (url k : String),
       (save_to_s3 md5hex ts st content url).2 = some k →
       k = s3OutputPfx ++ indexDocId md5hex url ++ ".json")
    ∧ (∀ (md5hex : String → String) (st : S3State) (es : EsState)
         (s3_key url indexName : String) (c : Content),
         (es.docs.map Prod.fst).Nodup →
         retrieve_from_s3 md5hex st none (some s3_key) false = some c →
         ((indexTask md5hex st
             (indexTask md5hex st es s3_key url indexName).1
             s3_key url indexName).1.docs.countP
            (fun p => p.1 == indexDocId md5hex url) = 1
          ∧ (((indexTask md5hex st
                (indexTask md5hex st es s3_key url indexName).1
                s3_key url indexName).1.docs.map Prod.fst).Nodup))) := by
  constructor
  · intro md5hex ts st content url k h
    exact save_to_s3_key md5hex ts st content url k h
  · intro md5hex st es s3_key url indexName c hnd hret
    unfold indexTask
    rw [hret]
    constructor
    · exact countP_updateA _ _ _ (updateA_fst_nodup _ _ _ hnd)
    · exact updateA_fst_nodup _ _ _ (updateA_fst_nodup _ _ _ hnd)

theorem c9_docid_eq_content_key_witness :
    ("output/http://a.test/.json" : String) =
      s3OutputPfx ++ indexDocId (fun s => s) "http://a.test/" ++ ".json" ∧
    ((indexTask (fun s => s)
        ⟨[("output/http://a.test/.json", .jsonObj [("url", "u")])], []⟩
        (indexTask (fun s => s)
          ⟨[("output/http://a.test/.json", .jsonObj [("url", "u")])], []⟩
          ⟨[]⟩ "output/http://a.test/.json" "http://a.test/" "webcrawler").1
        "output/http://a.test/.json" "http://a.test/" "webcrawler").1.docs.countP
      (fun p => p.1 == indexDocId (fun s => s) "http://a.test/")) = 1 :=
  ⟨c9_docid_eq_content_key.1 (fun s => s) "9" ⟨[], []⟩
      [("url", "u")] "http://a.test/" "output/http://a.test/.json" (by decide),
   (c9_docid_eq_content_key.2 (fun s => s)
      ⟨[("output/http://a.test/.json", .jsonObj [("url", "u")])], []⟩
      ⟨[]⟩ "output/http://a.test/.json" "http://a.test/" "webcrawler"
      [("url", "u")] (by decide) (by decide)).1⟩

/-- tasks.crawl on an already-stored URL: skipped, no fetch, no mutation. -/
theorem tasksCrawl_skips (md5hex : String → String) (ts : String) (st : S3State)
    (fetch : TasksFetch) (url : String) (depth : Nat) (cfg : TasksConfig)
    (h : check_content_exists md5hex st url false = true) :
    tasksCrawl md5hex ts st fetch url depth cfg = ⟨"skipped", url, false, st, [], [], []⟩ := by
  unfold tasksCrawl
  rw [if_pos h]

/-- Claim C3 (corrected): the sequential half of dedup idempotence. A crawl
task first consults the store and, when a record exists, returns skipped
without fetching or writing; consequently two sequential submissions of the
same URL (the second starting after the first completed) produce one
success, one skipped, and exactly one Content Store write under the URL's
JSON content key. The concurrent half of the original claim fails, see the
counterexample. -/
theorem c3_dedup_sequential :
    (∀ (md5hex : String → String) (ts : String) (st : S3State)
       (fetch : TasksFetch) (url : String) (depth : Nat) (cfg : TasksConfig),
       check_content_exists md5hex st url false = true →
       (tasksCrawl md5hex ts st fetch url depth cfg).status = "skipped" ∧
       (tasksCrawl md5hex ts st fetch url depth cfg).fetched = false ∧
       (tasksCrawl md5hex ts st fetch url depth cfg).store = st)
    ∧ (∀ (md5hex : String → String) (ts url : String) (content : Content),
       (dupRun md5hex ts url content ⟨[], []⟩ [false, false, true]).t0.status =
         some "success" ∧
       (dupRun md5hex ts url content ⟨[], []⟩ [false, false, true]).t1.status =
         some "skipped" ∧
       (dupRun md5hex ts url content ⟨[], []⟩ [false, false, true]).s3.putLog.count
         (s3OutputPfx ++ md5hex url ++ ".json") = 1) := by
  constructor
  · intro md5hex ts st fetch url depth cfg h
    rw [tasksCrawl_skips md5hex ts st fetch url depth cfg h]
    exact ⟨rfl, rfl, rfl⟩
  · intro md5hex ts url content
    have hchk0 : check_content_exists md5hex ⟨[], []⟩ url false = false := by
      unfold check_content_exists
      simp [lookupA]
    have h1 : dupRun md5hex ts url content ⟨[], []⟩ [false] =
        ⟨⟨[], []⟩, ⟨1, none⟩, ⟨0, none⟩⟩ := by
      unfold dupRun dupInit
      simp [dupStep, dupStepTask, hchk0]
    have h2 : dupRun md5hex ts url content ⟨[], []⟩ [false, false] =
        ⟨(save_to_s3 md5hex ts ⟨[], []⟩ content url).1,
         ⟨2, some "success"⟩, ⟨0, none⟩⟩ := by
      unfold dupRun at h1 ⊢
      simp only [List.foldl] at h1 ⊢
      rw [h1]
      simp [dupStep, dupStepTask]
    have h3 : dupRun md5hex ts url content ⟨[], []⟩ [false, false, true] =
        ⟨(save_to_s3 md5hex ts ⟨[], []⟩ content url).1,
         ⟨2, some "success"⟩, ⟨2, some "skipped"⟩⟩ := by
      unfold dupRun at h2 ⊢
      simp only [List.foldl] at h2 ⊢
      rw [h2]
      simp [dupStep, dupStepTask, check_after_save]
    rw [h3]
    exact ⟨rfl, rfl, save_putLog_count md5hex ts content url⟩

theorem c3_dedup_sequential_witness :
    (check_content_exists (fun s => s)
        ⟨[("output/http://a.test/.json", .jsonObj [("url", "u")])], []⟩
        "http://a.test/" false = true ∧
      (tasksCrawl (fun s => s) "7"
        ⟨[("output/http://a.test/.json", .jsonObj [("url", "u")])], []⟩
        (.page [] "T" "D" "t" "h") "http://a.test/" 0 ⟨3, []⟩).status = "skipped")
    ∧ (dupRun (fun s => s) "7" "http://a.test/" [("url", "u")] ⟨[], []⟩
        [false, false, true]).t1.status = some "skipped" :=
  ⟨⟨by decide,
    (c3_dedup_sequential.1 (fun s => s) "7"
      ⟨[("output/http://a.test/.json", .jsonObj [("url", "u")])], []⟩
      (.page [] "T" "D" "t" "h") "http://a.test/" 0 ⟨3, []⟩ (by decide)).1⟩,
   (c3_dedup_sequential.2 (fun s => s) "7" "http://a.test/" [("url", "u")]).2.1⟩

/-- Claim C3 counterexample: under the interleaving in which both workers
pass the existence check before either writes, both submissions of the same
URL return success and the JSON content key is written twice, refuting
"at most one success ingestion and at most one Content Store write" for
concurrent submission. -/
theorem c3_concurrent_double_write :
    (dupRun (fun s => s) "7" "http://a.test/" [("url", "u")] ⟨[], []⟩
        [false, true, false, true]).t0.status = some "success" ∧
    (dupRun (fun s => s) "7" "http://a.test/" [("url", "u")] ⟨[], []⟩
        [false, true, false, true]).t1.status = some "success" ∧
    (dupRun (fun s => s) "7" "http://a.test/" [("url", "u")] ⟨[], []⟩
        [false, true, false, true]).s3.putLog.count
      (s3OutputPfx ++ (fun s : String => s) "http://a.test/" ++ ".json") = 2 := by
  decide

/-! ### Crawler-node lemmas -/

theorem nodeProcessLinks_nodup (pageUrl : String) (rawLinks : List String) :
    (nodeProcessLinks pageUrl rawLinks).Nodup := by
  unfold nodeProcessLinks
  exact List.Nodup.sublist (List.take_sublist _ _) (List.nodup_dedup _)

theorem nodeProcessLinks_len (pageUrl : String) (rawLinks : List String) :
    (nodeProcessLinks pageUrl rawLinks).length ≤ 10 := by
  unfold nodeProcessLinks
  simp only [List.length_take]
  omega

/-- Claim C5 (amended, MPI worker part): a task whose URL fails the robots
check of its domain rules is answered with status disallowed, an empty link
list and empty content, and the page-fetch step is never reached, whatever
the fetch oracle would have returned. -/
theorem c5_robots_mpi_amended :
    ∀ (rules : RobotsRules) (url : String) (fetch : NodeFetch),
      is_allowed_url url rules.disallowed_paths = false →
      crawlerHandleTask rules url fetch =
        (.result ⟨url, [], "", "disallowed"⟩, false) := by
  intro rules url fetch h
  simp [crawlerHandleTask, h]

theorem c5_robots_mpi_amended_witness :
    is_allowed_url "http://a.test/private/x" (RobotsRules.mk ["/private"] 1).disallowed_paths
      = false ∧
    crawlerHandleTask ⟨["/private"], 1⟩ "http://a.test/private/x"
        (.resp "text/html" 200 ["http://a.test/y"] "body") =
      (.result ⟨"http://a.test/private/x", [], "", "disallowed"⟩, false) :=
  ⟨by decide,
   c5_robots_mpi_amended ⟨["/private"], 1⟩ "http://a.test/private/x"
     (.resp "text/html" 200 ["http://a.test/y"] "body") (by decide)⟩

/-- Claim C5 counterexample: the Celery worker (tasks.crawl) performs no
robots check at all. For a URL whose path matches a disallowed prefix of
its domain robots rules, the Celery task still reaches the fetch step and
returns success, not disallowed. -/
theorem c5_celery_ignores_robots :
    is_allowed_url "http://a.test/private/x" ["/private"] = false ∧
    (tasksCrawl (fun s => s) "7" ⟨[], []⟩ (.page [] "T" "D" "t" "h")
      "http://a.test/private/x" 0 ⟨3, []⟩).fetched = true ∧
    (tasksCrawl (fun s => s) "7" ⟨[], []⟩ (.page [] "T" "D" "t" "h")
      "http://a.test/private/x" 0 ⟨3, []⟩).status = "success" := by
  decide

/-- Claim C7 (amended, MPI worker part): every tag-1 result of the MPI
crawler carries a duplicate-free link list of length at most 10 (the
success branch deduplicates and caps; every other branch reports no
links). -/
theorem c7_node_links_amended :
    ∀ (rules : RobotsRules) (url : String) (fetch : NodeFetch) (r : NodeResult),
      (crawlerHandleTask rules url fetch).1 = .result r →
      r.new_urls.Nodup ∧ r.new_urls.length ≤ 10 := by
  intro rules url fetch r h
  unfold crawlerHandleTask at h
  split at h
  · simp only [WorkerMsg.result.injEq] at h
    rw [← h]
    exact ⟨List.nodup_nil, by simp⟩
  · cases fetch with
    | raises e =>
      dsimp only at h
      simp at h
    | resp ct code hrefs text =>
      dsimp only at h
      split at h
      · simp only [WorkerMsg.result.injEq] at h
        rw [← h]
        exact ⟨List.nodup_nil, by simp⟩
      · split at h
        · simp only [WorkerMsg.result.injEq] at h
          rw [← h]
          exact ⟨nodeProcessLinks_nodup url hrefs, nodeProcessLinks_len url hrefs⟩
        · simp only [WorkerMsg.result.injEq] at h
          rw [← h]
          exact ⟨List.nodup_nil, by simp⟩

theorem c7_node_links_amended_witness :
    (crawlerHandleTask ⟨[], 1⟩ "http://a.test/x"
        (.resp "text/html" 200
          ["/a", "/a", "/a#f", "http://a.test/b", "http://a.test/c"] "t")).1 =
      WorkerMsg.result
        ⟨"http://a.test/x", ["http://a.test/a", "http://a.test/b", "http://a.test/c"],
         "t", "success"⟩ ∧
    (["http://a.test/a", "http://a.test/b", "http://a.test/c"] : List String).Nodup ∧
    (["http://a.test/a", "http://a.test/b", "http://a.test/c"] : List String).length ≤ 10 :=
  ⟨by decide,
   c7_node_links_amended ⟨[], 1⟩ "http://a.test/x"
     (.resp "text/html" 200
       ["/a", "/a", "/a#f", "http://a.test/b", "http://a.test/c"] "t")
     ⟨"http://a.test/x", ["http://a.test/a", "http://a.test/b", "http://a.test/c"],
      "t", "success"⟩ (by decide)⟩

/-- Claim C7 counterexample: the Celery worker applies neither per-page
deduplication nor the cap of 10: a page with eleven identical anchors
yields eleven extracted links with duplicates. -/
theorem c7_celery_links_unbounded :
    (tasksCrawl (fun s => s) "7" ⟨[], []⟩
        (.page ["/p", "/p", "/p", "/p", "/p", "/p", "/p", "/p", "/p", "/p", "/p"]
          "T" "D" "t" "h")
        "http://a.test/" 0 ⟨3, []⟩).new_urls.length = 11 ∧
    ¬ (tasksCrawl (fun s => s) "7" ⟨[], []⟩
        (.page ["/p", "/p", "/p", "/p", "/p", "/p", "/p", "/p", "/p", "/p", "/p"]
          "T" "D" "t" "h")
        "http://a.test/" 0 ⟨3, []⟩).new_urls.Nodup := by
  decide

/-- Claim C8 (amended): the Celery task always returns exactly one result
whose status is skipped, success or error (exceptions inside the task body
are caught and mapped to error); the MPI worker sends exactly one message
per task, every tag-1 result carrying one of the statuses disallowed,
not_html, success or http_error_(code) - but a caught exception is
reported as a tag-999 error string, not as a status result. -/
theorem c8_single_result_amended :
    (∀ (md5hex : String → String) (ts : String) (st : S3State) (fetch : TasksFetch)
       (url : String) (depth : Nat) (cfg : TasksConfig),
       (tasksCrawl md5hex ts st fetch url depth cfg).status ∈
         (["skipped", "success", "error"] : List String))
    ∧ (∀ (rules : RobotsRules) (url : String) (fetch : NodeFetch) (r : NodeResult),
        (crawlerHandleTask rules url fetch).1 = .result r →
        r.status = "disallowed" ∨ r.status = "not_html" ∨ r.status = "success" ∨
          ∃ code : Nat, r.status = "http_error_" ++ toString code)
    ∧ (∀ (rules : RobotsRules) (url e : String),
        is_allowed_url url rules.disallowed_paths = true →
        (crawlerHandleTask rules url (.raises e)).1 =
          .errMsg ("Error crawling " ++ url ++ ": " ++ e)) := by
  refine ⟨?_, ?_, ?_⟩
  · intro md5hex ts st fetch url depth cfg
    unfold tasksCrawl
    split
    · simp
    · cases fetch with
      | raises e => simp
      | page hrefs title description text html => simp
  · intro rules url fetch r h
    unfold crawlerHandleTask at h
    split at h
    · simp only [WorkerMsg.result.injEq] at h
      rw [← h]
      exact Or.inl rfl
    · cases fetch with
      | raises e =>
        dsimp only at h
        simp at h
      | resp ct code hrefs text =>
        dsimp only at h
        split at h
        · simp only [WorkerMsg.result.injEq] at h
          rw [← h]
          exact Or.inr (Or.inl rfl)
        · split at h
          · simp only [WorkerMsg.result.injEq] at h
            rw [← h]
            exact Or.inr (Or.inr (Or.inl rfl))
          · simp only [WorkerMsg.result.injEq] at h
            rw [← h]
            exact Or.inr (Or.inr (Or.inr ⟨code, rfl⟩))
  · intro rules url e h
    simp [crawlerHandleTask, h]

theorem c8_single_result_amended_witness :
    (tasksCrawl (fun s => s) "7" ⟨[], []⟩ (.raises "boom") "http://a.test/" 0
        ⟨3, []⟩).status ∈ (["skipped", "success", "error"] : List String) ∧
    (("disallowed" : String) = "disallowed" ∨ ("disallowed" : String) = "not_html" ∨
      ("disallowed" : String) = "success" ∨
      ∃ code : Nat, ("disallowed" : String) = "http_error_" ++ toString code) ∧
    (crawlerHandleTask ⟨[], 1⟩ "http://a.test/x" (.raises "boom")).1 =
      .errMsg ("Error crawling " ++ "http://a.test/x" ++ ": " ++ "boom") :=
  ⟨c8_single_result_amended.1 (fun s => s) "7" ⟨[], []⟩ (.raises "boom")
     "http://a.test/" 0 ⟨3, []⟩,
   c8_single_result_amended.2.1 ⟨["/x"], 1⟩ "http://a.test/x"
     (.resp "text/html" 200 [] "t")
     ⟨"http://a.test/x", [], "", "disallowed"⟩ (by decide),
   c8_single_result_amended.2.2 ⟨[], 1⟩ "http://a.test/x" "boom" (by decide)⟩

/-- Claim C8 counterexample: on an exception the MPI worker sends a tag-999
error string to the master; the message produced is not a result record
carrying one of the defined statuses. -/
theorem c8_mpi_error_not_status :
    (crawlerHandleTask ⟨[], 1⟩ "http://a.test/x" (.raises "boom")).1 =
      .errMsg "Error crawling http://a.test/x: boom" ∧
    (match (crawlerHandleTask ⟨[], 1⟩ "http://a.test/x" (.raises "boom")).1 with
     | .result _ => False
     | .errMsg _ => True) :=
  ⟨by decide, by trivial⟩

/-! ### Master-loop lemmas: the terminated flag -/

theorem enqueueChild_terminated (cfg : MasterConfig) (nd : Nat) (st : MasterState)
    (u : String) : (enqueueChild cfg nd st u).terminated = st.terminated := by
  unfold enqueueChild
  dsimp only
  split <;> rfl

theorem foldl_enqueue_terminated (cfg : MasterConfig) (nd : Nat)
    (urls : List String) (st : MasterState) :
    (urls.foldl (enqueueChild cfg nd) st).terminated = st.terminated := by
  induction urls generalizing st with
  | nil => rfl
  | cons a t ih => rw [List.foldl_cons, ih, enqueueChild_terminated]

theorem masterHandleResult_terminated (cfg : MasterConfig) (st : MasterState)
    (source : Nat) (r : NodeResult) :
    (masterHandleResult cfg st source r).terminated = st.terminated := by
  unfold masterHandleResult
  dsimp only
  split
  · split
    · rfl
    · split <;> split <;> simp [foldl_enqueue_terminated]
  · split <;> rfl

theorem masterHandleError_terminated (cfg : MasterConfig) (st : MasterState)
    (source : Nat) :
    (masterHandleError cfg st source).terminated = st.terminated := by
  unfold masterHandleError
  split <;> rfl

theorem assignOne_terminated (st : MasterState) (i : Nat) :
    (assignOne st i).terminated = st.terminated := by
  unfold assignOne
  split
  · split <;> rfl
  · rfl

theorem foldl_assign_terminated (ids : List Nat) (st : MasterState) :
    (ids.foldl assignOne st).terminated = st.terminated := by
  induction ids generalizing st with
  | nil => rfl
  | cons a t ih => rw [List.foldl_cons, ih, assignOne_terminated]

theorem masterAssign_terminated (cfg : MasterConfig) (st : MasterState) :
    (masterAssign cfg st).terminated = st.terminated := by
  unfold masterAssign
  split
  · exact foldl_assign_terminated _ _
  · rfl

/-- Claim C4 (amended): the master declares termination exactly at the
first loop iteration that observes the queue empty and active_crawlers
zero (no stabilization window, no persistence requirement); once set, the
flag persists, and no other iteration sets it. -/
theorem c4_termination_condition_amended :
    ∀ (cfg : MasterConfig) (st : MasterState) (probe : Option MasterMsg),
      (masterIter cfg st probe).terminated = true ↔
        (st.terminated = true ∨
          (st.crashed = false ∧ st.url_queue = [] ∧ st.active_crawlers = 0)) := by
  intro cfg st probe
  unfold masterIter
  by_cases h1 : st.crashed = true ∨ st.terminated = true
  · rw [if_pos h1]
    rcases h1 with hc | ht
    · simp [hc]
    · simp [ht]
  · have hc : st.crashed = false := by
      cases hcb : st.crashed with
      | false => rfl
      | true => exact absurd (Or.inl hcb) h1
    have ht : st.terminated = false := by
      cases htb : st.terminated with
      | false => rfl
      | true => exact absurd (Or.inr htb) h1
    rw [if_neg h1]
    by_cases h2 : st.url_queue = [] ∧ st.active_crawlers = 0
    · rw [if_pos h2]
      simp [hc, h2]
    · rw [if_neg h2]
      have hterm :
          (if (match probe with
               | some (.res s r) => masterHandleResult cfg st s r
               | some (.err s _m) => masterHandleError cfg st s
               | none => st).crashed = true then
            (match probe with
             | some (.res s r) => masterHandleResult cfg st s r
             | some (.err s _m) => masterHandleError cfg st s
             | none => st)
          else masterAssign cfg
            (match probe with
             | some (.res s r) => masterHandleResult cfg st s r
             | some (.err s _m) => masterHandleError cfg st s
             | none => st)).terminated = st.terminated := by
        cases probe with
        | none => split <;> simp [masterAssign_terminated]
        | some m =>
          cases m with
          | res s r =>
            split <;>
              simp [masterHandleResult_terminated, masterAssign_terminated]
          | err s msg =>
            split <;>
              simp [masterHandleError_terminated, masterAssign_terminated]
      rw [hterm, ht]
      simp [hc, h2]

/-- Claim C4 counterexample: with no seed URLs the very first loop
iteration observes queue-empty and zero active crawlers and immediately
declares termination - there is no stabilization window and no second
observation. -/
theorem c4_terminates_on_first_observation :
    (masterInit ⟨[], 3, 50, 4⟩).terminated = false ∧
    (masterIter ⟨[], 3, 50, 4⟩ (masterInit ⟨[], 3, 50, 4⟩) none).terminated = true := by
  decide

/-! ### Master-loop lemmas: depth bookkeeping (C1) -/

theorem depthInv_of_eq (cfg : MasterConfig) (st st' : MasterState)
    (h : depthInv cfg st)
    (h1 : st'.url_queue = st.url_queue) (h2 : st'.url_depths = st.url_depths)
    (h3 : st'.dispatched = st.dispatched) : depthInv cfg st' := by
  obtain ⟨hq, hd⟩ := h
  constructor
  · intro u hu
    rw [h2]
    exact hq u (h1 ▸ hu)
  · intro pr hpr
    exact hd pr (h3 ▸ hpr)

theorem enqueueChild_depthInv (cfg : MasterConfig) (nd : Nat) (st : MasterState)
    (u : String) (hnd : nd ≤ cfg.max_depth) (h : depthInv cfg st) :
    depthInv cfg (enqueueChild cfg nd st u) := by
  obtain ⟨hq, hd⟩ := h
  unfold enqueueChild
  dsimp only
  split
  case isTrue hc =>
    constructor
    · intro v hv
      simp only [List.mem_append, List.mem_singleton] at hv
      rcases hv with hv | rfl
      · have hvu : v ≠ u := fun he => hc.2.1 (he ▸ hv)
        obtain ⟨d, hld, hdle⟩ := hq v hv
        refine ⟨d, ?_, hdle⟩
        rw [lookupA_updateA_ne _ _ _ _ hvu]
        exact hld
      · exact ⟨nd, lookupA_updateA_self _ _ _, hnd⟩
    · exact hd
  case isFalse => exact ⟨hq, hd⟩

theorem foldl_enqueue_depthInv (cfg : MasterConfig) (nd : Nat)
    (urls : List String) (st : MasterState) (hnd : nd ≤ cfg.max_depth)
    (h : depthInv cfg st) :
    depthInv cfg (urls.foldl (enqueueChild cfg nd) st) := by
  induction urls generalizing st with
  | nil => exact h
  | cons a t ih =>
    simp only [List.foldl_cons]
    exact ih _ (enqueueChild_depthInv cfg nd st a hnd h)

theorem masterHandleResult_depthInv (cfg : MasterConfig) (st : MasterState)
    (source : Nat) (r : NodeResult) (h : depthInv cfg st) :
    depthInv cfg (masterHandleResult cfg st source r) := by
  unfold masterHandleResult
  dsimp only
  split
  · split
    · exact depthInv_of_eq cfg st _ h rfl rfl rfl
    · split
      · apply depthInv_of_eq cfg _ _ ?_ rfl rfl rfl
        split
        case isTrue hlt =>
          exact foldl_enqueue_depthInv cfg _ r.new_urls _ (by omega)
            (depthInv_of_eq cfg st _ h rfl rfl rfl)
        case isFalse =>
          exact depthInv_of_eq cfg st _ h rfl rfl rfl
      · split
        case isTrue hlt =>
          exact foldl_enqueue_depthInv cfg _ r.new_urls _ (by omega)
            (depthInv_of_eq cfg st _ h rfl rfl rfl)
        case isFalse =>
          exact depthInv_of_eq cfg st _ h rfl rfl rfl
  · split
    · exact depthInv_of_eq cfg st _ h rfl rfl rfl
    · exact depthInv_of_eq cfg st _ h rfl rfl rfl

theorem masterHandleError_depthInv (cfg : MasterConfig) (st : MasterState)
    (source : Nat) (h : depthInv cfg st) :
    depthInv cfg (masterHandleError cfg st source) := by
  unfold masterHandleError
  split
  · exact depthInv_of_eq cfg st _ h rfl rfl rfl
  · exact h

theorem assignOne_depthInv (cfg : MasterConfig) (st : MasterState) (i : Nat)
    (h : depthInv cfg st) : depthInv cfg (assignOne st i) := by
  obtain ⟨hq, hd⟩ := h
  unfold assignOne
  split
  · split
    next heq => exact ⟨hq, hd⟩
    next u rest heq =>
      constructor
      · intro v hv
        have hv' : v ∈ st.url_queue := by
          rw [heq]
          exact List.mem_cons_of_mem u hv
        exact hq v hv'
      · intro pr hpr
        simp only [List.mem_append, List.mem_singleton] at hpr
        rcases hpr with hpr | rfl
        · exact hd pr hpr
        · have hu : u ∈ st.url_queue := by
            rw [heq]
            exact List.mem_cons_self u rest
          obtain ⟨d, hld, hdle⟩ := hq u hu
          simpa [hld] using hdle
  · exact ⟨hq, hd⟩

theorem foldl_assign_depthInv (cfg : MasterConfig) (ids : List Nat)
    (st : MasterState) (h : depthInv cfg st) :
    depthInv cfg (ids.foldl assignOne st) := by
  induction ids generalizing st with
  | nil => exact h
  | cons a t ih =>
    simp only [List.foldl_cons]
    exact ih _ (assignOne_depthInv cfg st a h)

theorem masterAssign_depthInv (cfg : MasterConfig) (st : MasterState)
    (h : depthInv cfg st) : depthInv cfg (masterAssign cfg st) := by
  unfold masterAssign
  split
  · exact foldl_assign_depthInv cfg _ st h
  · exact h

theorem masterIter_depthInv (cfg : MasterConfig) (st : MasterState)
    (probe : Option MasterMsg) (h : depthInv cfg st) :
    depthInv cfg (masterIter cfg st probe) := by
  unfold masterIter
  split
  · exact h
  · split
    · exact depthInv_of_eq cfg st _ h rfl rfl rfl
    · dsimp only
      have h1 : depthInv cfg
          (match probe with
           | some (.res s r) => masterHandleResult cfg st s r
           | some (.err s _m) => masterHandleError cfg st s
           | none => st) := by
        cases probe with
        | none => exact h
        | some m =>
          cases m with
          | res s r => exact masterHandleResult_depthInv cfg st s r h
          | err s msg => exact masterHandleError_depthInv cfg st s h
      split
      · exact h1
      · exact masterAssign_depthInv cfg _ h1

theorem masterInit_depthInv (cfg : MasterConfig) : depthInv cfg (masterInit cfg) := by
  unfold masterInit
  dsimp only
  have hgen : ∀ (seeds : List String) (st : MasterState),
      (∀ u ∈ st.url_queue, ∃ d, lookupA u st.url_depths = some d ∧ d ≤ cfg.max_depth) →
      (∀ pr ∈ st.dispatched, pr.2 ≤ cfg.max_depth) →
      depthInv cfg (seeds.foldl (fun st u =>
        { st with url_queue := st.url_queue ++ [u],
                  url_depths := updateA u 0 st.url_depths }) st) := by
    intro seeds
    induction seeds with
    | nil =>
      intro st h1 h2
      exact ⟨h1, h2⟩
    | cons a t ih =>
      intro st h1 h2
      simp only [List.foldl_cons]
      apply ih
      · intro v hv
        simp only [List.mem_append, List.mem_singleton] at hv
        rcases hv with hv | rfl
        · by_cases hva : v = a
          · subst hva
            exact ⟨0, lookupA_updateA_self _ _ _, Nat.zero_le _⟩
          · obtain ⟨d, hld, hdle⟩ := h1 v hv
            refine ⟨d, ?_, hdle⟩
            rw [lookupA_updateA_ne _ _ _ _ hva]
            exact hld
        · exact ⟨0, lookupA_updateA_self _ _ _, Nat.zero_le _⟩
      · exact h2
  apply hgen
  · intro u hu
    simp at hu
  · intro pr hpr
    simp at hpr

theorem masterRun_depthInv (cfg : MasterConfig) (events : List (Option MasterMsg)) :
    depthInv cfg (masterRun cfg events) := by
  unfold masterRun
  have hgen : ∀ (evs : List (Option MasterMsg)) (st : MasterState),
      depthInv cfg st → depthInv cfg (evs.foldl (masterIter cfg) st) := by
    intro evs
    induction evs with
    | nil => intro st h; exact h
    | cons e t ih =>
      intro st h
      simp only [List.foldl_cons]
      exact ih _ (masterIter_depthInv cfg st e h)
  exact hgen events _ (masterInit_depthInv cfg)

theorem enqueueChild_queue_sup (cfg : MasterConfig) (nd : Nat) (st : MasterState)
    (u v : String) (h : v ∈ st.url_queue) :
    v ∈ (enqueueChild cfg nd st u).url_queue := by
  unfold enqueueChild
  dsimp only
  split
  · simp only [List.mem_append]
    exact Or.inl h
  · exact h

theorem enqueueChild_lookup_stable (cfg : MasterConfig) (nd : Nat)
    (st : MasterState) (u v : String) (h : v ∈ st.url_queue) :
    lookupA v (enqueueChild cfg nd st u).url_depths = lookupA v st.url_depths := by
  unfold enqueueChild
  dsimp only
  split
  case isTrue hc =>
    have hvu : v ≠ u := fun he => hc.2.1 (he ▸ h)
    exact lookupA_updateA_ne _ _ _ _ hvu
  case isFalse => rfl

theorem enqueueChild_new_lookup (cfg : MasterConfig) (nd : Nat) (st : MasterState)
    (u v : String) (hv : v ∈ (enqueueChild cfg nd st u).url_queue)
    (hnv : v ∉ st.url_queue) :
    lookupA v (enqueueChild cfg nd st u).url_depths = some nd := by
  unfold enqueueChild at hv ⊢
  dsimp only at hv ⊢
  by_cases hc : u ∉ st.crawled_urls ∧ u ∉ st.url_queue ∧
      (lookupA (extract_domain u) st.domain_counts).getD 0 < cfg.max_urls_per_domain
  · rw [if_pos hc] at hv ⊢
    simp only [List.mem_append, List.mem_singleton] at hv
    rcases hv with hv | rfl
    · exact absurd hv hnv
    · exact lookupA_updateA_self _ _ _
  · rw [if_neg hc] at hv
    exact absurd hv hnv

theorem foldl_enqueue_lookup_stable (cfg : MasterConfig) (nd : Nat)
    (urls : List String) (st : MasterState) (v : String) (h : v ∈ st.url_queue) :
    lookupA v (urls.foldl (enqueueChild cfg nd) st).url_depths =
      lookupA v st.url_depths := by
  induction urls generalizing st with
  | nil => rfl
  | cons a t ih =>
    simp only [List.foldl_cons]
    rw [ih _ (enqueueChild_queue_sup cfg nd st a v h),
        enqueueChild_lookup_stable cfg nd st a v h]

theorem foldl_enqueue_new_lookup (cfg : MasterConfig) (nd : Nat)
    (urls : List String) (st : MasterState) (v : String)
    (hv : v ∈ (urls.foldl (enqueueChild cfg nd) st).url_queue)
    (hnv : v ∉ st.url_queue) :
    lookupA v (urls.foldl (enqueueChild cfg nd) st).url_depths = some nd := by
  induction urls generalizing st with
  | nil => exact absurd hv hnv
  | cons a t ih =>
    simp only [List.foldl_cons] at hv ⊢
    by_cases hmem : v ∈ (enqueueChild cfg nd st a).url_queue
    · rw [foldl_enqueue_lookup_stable cfg nd t _ v hmem]
      exact enqueueChild_new_lookup cfg nd st a v hmem hnv
    · exact ih _ hv hmem

theorem handleResult_child_depth (cfg : MasterConfig) (st : MasterState)
    (source : Nat) (r : NodeResult) (d : Nat) (u : String)
    (hs : r.status = "success") (hd : lookupA r.url st.url_depths = some d)
    (hu : u ∈ (masterHandleResult cfg st source r).url_queue)
    (hnu : u ∉ st.url_queue) :
    lookupA u (masterHandleResult cfg st source r).url_depths = some (d + 1) := by
  unfold masterHandleResult at hu ⊢
  dsimp only at hu ⊢
  rw [if_pos hs] at hu ⊢
  rw [hd] at hu ⊢
  dsimp only at hu ⊢
  by_cases hcont : r.content ≠ ""
  · rw [if_pos hcont] at hu ⊢
    dsimp only at hu ⊢
    by_cases hlt : d < cfg.max_depth
    · rw [if_pos hlt] at hu ⊢
      exact foldl_enqueue_new_lookup cfg (d + 1) r.new_urls _ u hu hnu
    · rw [if_neg hlt] at hu
      exact absurd hu hnu
  · rw [if_neg hcont] at hu ⊢
    by_cases hlt : d < cfg.max_depth
    · rw [if_pos hlt] at hu ⊢
      exact foldl_enqueue_new_lookup cfg (d + 1) r.new_urls _ u hu hnu
    · rw [if_neg hlt] at hu
      exact absurd hu hnu

/-- Claim C1: depth correctness. In the master, every task ever dispatched
to a crawler has depth at most max_depth (over every run from the seeded
initial state), and during the ingestion of a success result every newly
enqueued child URL is recorded at exactly the parent depth plus one. In
the Celery task, children are scheduled only when the parent depth is
strictly below max_depth and always at depth + 1. -/
theorem c1_depth_correctness :
    (∀ (cfg : MasterConfig) (events : List (Option MasterMsg))
       (pr : String × Nat), pr ∈ (masterRun cfg events).dispatched →
       pr.2 ≤ cfg.max_depth)
    ∧ (∀ (cfg : MasterConfig) (st : MasterState) (source : Nat) (r : NodeResult)
         (d : Nat) (u : String),
         r.status = "success" → lookupA r.url st.url_depths = some d →
         u ∈ (masterHandleResult cfg st source r).url_queue →
         u ∉ st.url_queue →
         lookupA u (masterHandleResult cfg st source r).url_depths = some (d + 1))
    ∧ (∀ (md5hex : String → String) (ts : String) (st : S3State)
         (fetch : TasksFetch) (url : String) (depth : Nat) (cfg : TasksConfig)
         (p : String × Nat),
         p ∈ (tasksCrawl md5hex ts st fetch url depth cfg).scheduled →
         p.2 = depth + 1 ∧ depth < cfg.max_depth) := by
  refine ⟨?_, ?_, ?_⟩
  · intro cfg events pr hpr
    exact (masterRun_depthInv cfg events).2 pr hpr
  · intro cfg st source r d u hs hd hu hnu
    exact handleResult_child_depth cfg st source r d u hs hd hu hnu
  · intro md5hex ts st fetch url depth cfg p hp
    unfold tasksCrawl at hp
    split at hp
    · simp at hp
    · cases fetch with
      | raises e =>
        dsimp only at hp
        simp at hp
      | page hrefs title description text html =>
        dsimp only at hp
        split at hp
        case isTrue hlt =>
          simp only [List.mem_filterMap] at hp
          obtain ⟨a, _ha, heq⟩ := hp
          split at heq
          · simp only [Option.some.injEq] at heq
            rw [← heq]
            exact ⟨rfl, hlt⟩
          · simp at heq
        case isFalse =>
          simp at hp

theorem c1_depth_correctness_witness :
    (("http://a.test/", 0) : String × Nat).2 ≤
      (⟨["http://a.test/"], 3, 50, 4⟩ : MasterConfig).max_depth ∧
    lookupA "http://a.test/p1"
      (masterHandleResult ⟨["http://a.test/"], 3, 50, 4⟩
        (masterRun ⟨["http://a.test/"], 3, 50, 4⟩ [none]) 1
        ⟨"http://a.test/", ["http://a.test/p1"], "", "success"⟩).url_depths =
      some (0 + 1) ∧
    ((("http://a.test/p2", 1) : String × Nat).2 = 0 + 1 ∧
      0 < (⟨3, []⟩ : TasksConfig).max_depth) :=
  ⟨c1_depth_correctness.1 ⟨["http://a.test/"], 3, 50, 4⟩ [none]
     ("http://a.test/", 0) (by decide),
   c1_depth_correctness.2.1 ⟨["http://a.test/"], 3, 50, 4⟩
     (masterRun ⟨["http://a.test/"], 3, 50, 4⟩ [none]) 1
     ⟨"http://a.test/", ["http://a.test/p1"], "", "success"⟩ 0 "http://a.test/p1"
     rfl (by decide) (by decide) (by decide),
   c1_depth_correctness.2.2 (fun s => s) "7" ⟨[], []⟩ (.page ["/p2"] "T" "D" "t" "h")
     "http://a.test/" 0 ⟨3, []⟩ ("http://a.test/p2", 1) (by decide)⟩

/-! ### Master-loop lemmas: domain accounting (C2) -/

theorem capInv_of_eq (cfg : MasterConfig) (dom : String) (st st' : MasterState)
    (h : capInv cfg dom st)
    (h1 : st'.url_queue = st.url_queue) (h2 : st'.domain_counts = st.domain_counts)
    (h3 : st'.dispatched = st.dispatched) : capInv cfg dom st' := by
  unfold capInv dispCountP domCountP at h ⊢
  rw [h1, h2, h3]
  exact h

theorem enqueueChild_capInv (cfg : MasterConfig) (dom : String) (nd : Nat)
    (st : MasterState) (u : String) (h : capInv cfg dom st) :
    capInv cfg dom (enqueueChild cfg nd st u) := by
  obtain ⟨hcap, heq⟩ := h
  unfold enqueueChild
  dsimp only
  split
  case isTrue hc =>
    unfold capInv
    unfold dispCountP domCountP at heq ⊢
    dsimp only
    by_cases hdom : extract_domain u = dom
    · rw [hdom, lookupA_updateA_self]
      have hcnt : (extract_domain u == dom) = true := by
        simp [hdom]
      constructor
      · simp only [Option.getD_some]
        have := hc.2.2
        rw [hdom] at this
        omega
      · rw [List.countP_append]
        simp [List.countP_cons, hcnt]
        omega
    · have hne : dom ≠ extract_domain u := fun he => hdom he.symm
      rw [lookupA_updateA_ne _ _ _ _ hne]
      have hcnt : (extract_domain u == dom) = false := by
        simp [hdom]
      constructor
      · exact hcap
      · rw [List.countP_append]
        simp [List.countP_cons, hcnt]
        omega
  case isFalse => exact ⟨hcap, heq⟩

theorem foldl_enqueue_capInv (cfg : MasterConfig) (dom : String) (nd : Nat)
    (urls : List String) (st : MasterState) (h : capInv cfg dom st) :
    capInv cfg dom (urls.foldl (enqueueChild cfg nd) st) := by
  induction urls generalizing st with
  | nil => exact h
  | cons a t ih =>
    simp only [List.foldl_cons]
    exact ih _ (enqueueChild_capInv cfg dom nd st a h)

theorem masterHandleResult_capInv (cfg : MasterConfig) (dom : String)
    (st : MasterState) (source : Nat) (r : NodeResult) (h : capInv cfg dom st) :
    capInv cfg dom (masterHandleResult cfg st source r) := by
  unfold masterHandleResult
  dsimp only
  split
  · split
    · exact capInv_of_eq cfg dom st _ h rfl rfl rfl
    · split
      · apply capInv_of_eq cfg dom _ _ ?_ rfl rfl rfl
        split
        · exact foldl_enqueue_capInv cfg dom _ r.new_urls _
            (capInv_of_eq cfg dom st _ h rfl rfl rfl)
        · exact capInv_of_eq cfg dom st _ h rfl rfl rfl
      · split
        · exact foldl_enqueue_capInv cfg dom _ r.new_urls _
            (capInv_of_eq cfg dom st _ h rfl rfl rfl)
        · exact capInv_of_eq cfg dom st _ h rfl rfl rfl
  · split
    · exact capInv_of_eq cfg dom st _ h rfl rfl rfl
    · exact capInv_of_eq cfg dom st _ h rfl rfl rfl

theorem masterHandleError_capInv (cfg : MasterConfig) (dom : String)
    (st : MasterState) (source : Nat) (h : capInv cfg dom st) :
    capInv cfg dom (masterHandleError cfg st source) := by
  unfold masterHandleError
  split
  · exact capInv_of_eq cfg dom st _ h rfl rfl rfl
  · exact h

theorem assignOne_capInv (cfg : MasterConfig) (dom : String) (st : MasterState)
    (i : Nat) (h : capInv cfg dom st) : capInv cfg dom (assignOne st i) := by
  obtain ⟨hcap, heq⟩ := h
  unfold assignOne
  split
  · split
    next hq => exact ⟨hcap, heq⟩
    next u rest hq =>
      unfold capInv
      unfold dispCountP domCountP at heq ⊢
      constructor
      · exact hcap
      · rw [List.countP_append]
        rw [hq] at heq
        simp only [List.countP_cons, List.countP_nil] at heq ⊢
        cases hb : (extract_domain u == dom) with
        | true =>
          have hb2 : ((fun pr : String × Nat => extract_domain pr.1 == dom)
              (u, (lookupA u st.url_depths).getD 0)) = true := hb
          simp only [hb, hb2, if_true] at heq ⊢
          omega
        | false =>
          have hb2 : ((fun pr : String × Nat => extract_domain pr.1 == dom)
              (u, (lookupA u st.url_depths).getD 0)) = false := hb
          simp only [hb, hb2, if_false] at heq ⊢
          omega
  · exact ⟨hcap, heq⟩

theorem foldl_assign_capInv (cfg : MasterConfig) (dom : String) (ids : List Nat)
    (st : MasterState) (h : capInv cfg dom st) :
    capInv cfg dom (ids.foldl assignOne st) := by
  induction ids generalizing st with
  | nil => exact h
  | cons a t ih =>
    simp only [List.foldl_cons]
    exact ih _ (assignOne_capInv cfg dom st a h)

theorem masterAssign_capInv (cfg : MasterConfig) (dom : String) (st : MasterState)
    (h : capInv cfg dom st) : capInv cfg dom (masterAssign cfg st) := by
  unfold masterAssign
  split
  · exact foldl_assign_capInv cfg dom _ st h
  · exact h

theorem masterIter_capInv (cfg : MasterConfig) (dom : String) (st : MasterState)
    (probe : Option MasterMsg) (h : capInv cfg dom st) :
    capInv cfg dom (masterIter cfg st probe) := by
  unfold masterIter
  split
  · exact h
  · split
    · exact capInv_of_eq cfg dom st _ h rfl rfl rfl
    · dsimp only
      have h1 : capInv cfg dom
          (match probe with
           | some (.res s r) => masterHandleResult cfg st s r
           | some (.err s _m) => masterHandleError cfg st s
           | none => st) := by
        cases probe with
        | none => exact h
        | some m =>
          cases m with
          | res s r => exact masterHandleResult_capInv cfg dom st s r h
          | err s msg => exact masterHandleError_capInv cfg dom st s h
      split
      · exact h1
      · exact masterAssign_capInv cfg dom _ h1

theorem seedFold_fields (seeds : List String) (st : MasterState) :
    (seeds.foldl (fun st u =>
      { st with url_queue := st.url_queue ++ [u],
                url_depths := updateA u 0 st.url_depths }) st).url_queue =
        st.url_queue ++ seeds ∧
    (seeds.foldl (fun st u =>
      { st with url_queue := st.url_queue ++ [u],
                url_depths := updateA u 0 st.url_depths }) st).domain_counts =
        st.domain_counts ∧
    (seeds.foldl (fun st u =>
      { st with url_queue := st.url_queue ++ [u],
                url_depths := updateA u 0 st.url_depths }) st).dispatched =
        st.dispatched := by
  induction seeds generalizing st with
  | nil => simp
  | cons a t ih =>
    simp only [List.foldl_cons]
    obtain ⟨h1, h2, h3⟩ := ih ({ st with
      url_queue := st.url_queue ++ [a],
      url_depths := updateA a 0 st.url_depths })
    refine ⟨?_, h2, h3⟩
    rw [h1]
    simp

theorem masterInit_capInv (cfg : MasterConfig) (dom : String) :
    capInv cfg dom (masterInit cfg) := by
  unfold masterInit
  dsimp only
  obtain ⟨h1, h2, h3⟩ := seedFold_fields cfg.seed_urls _
  unfold capInv dispCountP domCountP
  rw [h1, h2, h3]
  dsimp only
  simp only [lookupA, Option.getD_none, List.countP_nil, List.nil_append]
  exact ⟨Nat.zero_le _, by omega⟩

theorem masterRun_capInv (cfg : MasterConfig) (dom : String)
    (events : List (Option MasterMsg)) :
    capInv cfg dom (masterRun cfg events) := by
  unfold masterRun
  have hgen : ∀ (evs : List (Option MasterMsg)) (st : MasterState),
      capInv cfg dom st → capInv cfg dom (evs.foldl (masterIter cfg) st) := by
    intro evs
    induction evs with
    | nil => intro st h; exact h
    | cons e t ih =>
      intro st h
      simp only [List.foldl_cons]
      exact ih _ (masterIter_capInv cfg dom st e h)
  exact hgen events _ (masterInit_capInv cfg dom)

/-- Claim C2 (amended): the per-domain counter never exceeds the cap; the
number of tasks ever dispatched for a domain is bounded by the number of
seed URLs of that domain plus the cap (seeds are enqueued without any cap
check); and each discovered-URL enqueue is guarded by a strict
counter-below-cap check evaluated before the append. -/
theorem c2_domain_cap_amended :
    (∀ (cfg : MasterConfig) (events : List (Option MasterMsg)) (dom : String),
       (lookupA dom (masterRun cfg events).domain_counts).getD 0 ≤
         cfg.max_urls_per_domain)
    ∧ (∀ (cfg : MasterConfig) (events : List (Option MasterMsg)) (dom : String),
        dispCountP dom (masterRun cfg events).dispatched ≤
          domCountP dom cfg.seed_urls + cfg.max_urls_per_domain)
    ∧ (∀ (cfg : MasterConfig) (nd : Nat) (st : MasterState) (u : String),
        (enqueueChild cfg nd st u).url_queue ≠ st.url_queue →
        (lookupA (extract_domain u) st.domain_counts).getD 0 <
          cfg.max_urls_per_domain) := by
  refine ⟨?_, ?_, ?_⟩
  · intro cfg events dom
    exact (masterRun_capInv cfg dom events).1
  · intro cfg events dom
    obtain ⟨hcap, heq⟩ := masterRun_capInv cfg dom events
    omega
  · intro cfg nd st u h
    unfold enqueueChild at h
    dsimp only at h
    by_cases hc : u ∉ st.crawled_urls ∧ u ∉ st.url_queue ∧
        (lookupA (extract_domain u) st.domain_counts).getD 0 < cfg.max_urls_per_domain
    · exact hc.2.2
    · rw [if_neg hc] at h
      exact absurd rfl h

theorem c2_domain_cap_amended_witness :
    (lookupA "a.test"
        (masterRun ⟨["http://a.test/"], 3, 2, 4⟩
          [none, some (.res 1 ⟨"http://a.test/",
            ["http://a.test/p1", "http://a.test/p2", "http://a.test/p3"], "",
            "success"⟩)]).domain_counts).getD 0 ≤ 2 ∧
    dispCountP "a.test"
        (masterRun ⟨["http://a.test/"], 3, 2, 4⟩
          [none, some (.res 1 ⟨"http://a.test/",
            ["http://a.test/p1", "http://a.test/p2", "http://a.test/p3"], "",
            "success"⟩)]).dispatched ≤
      domCountP "a.test" ["http://a.test/"] + 2 ∧
    (lookupA (extract_domain "http://a.test/p9")
        (masterInit ⟨["http://a.test/"], 3, 2, 4⟩).domain_counts).getD 0 < 2 :=
  ⟨c2_domain_cap_amended.1 ⟨["http://a.test/"], 3, 2, 4⟩
     [none, some (.res 1 ⟨"http://a.test/",
       ["http://a.test/p1", "http://a.test/p2", "http://a.test/p3"], "",
       "success"⟩)] "a.test",
   c2_domain_cap_amended.2.1 ⟨["http://a.test/"], 3, 2, 4⟩
     [none, some (.res 1 ⟨"http://a.test/",
       ["http://a.test/p1", "http://a.test/p2", "http://a.test/p3"], "",
       "success"⟩)] "a.test",
   c2_domain_cap_amended.2.2 ⟨["http://a.test/"], 3, 2, 4⟩ 1
     (masterInit ⟨["http://a.test/"], 3, 2, 4⟩) "http://a.test/p9" (by decide)⟩

/-- Claim C2 counterexample: seed URLs bypass the domain-cap check. With a
cap of zero for every domain and one seed for a.test, the master still
dispatches that seed, so the number of tasks dispatched for a.test exceeds
its cap, and the check is not applied before enqueueing seed URLs. -/
theorem c2_seed_bypasses_domain_cap :
    (⟨["http://a.test/"], 3, 0, 4⟩ : MasterConfig).max_urls_per_domain = 0 ∧
    dispCountP "a.test"
      (masterRun ⟨["http://a.test/"], 3, 0, 4⟩ [none]).dispatched = 1 := by
  constructor
  · rfl
  · decide

/-! ### URL-parsing lemmas (C6) -/

theorem takeWhile_middle (p : Char → Bool) (xs : List Char) (y : Char)
    (ys : List Char) (hx : ∀ x ∈ xs, p x = true) (hy : p y = false) :
    (xs ++ y :: ys).takeWhile p = xs ∧ (xs ++ y :: ys).dropWhile p = y :: ys := by
  induction xs with
  | nil => simp [List.takeWhile_cons, List.dropWhile_cons, hy]
  | cons a t ih =>
    have ha := hx a (List.mem_cons_self a t)
    have ht : ∀ x ∈ t, p x = true := fun x hx' => hx x (List.mem_cons_of_mem a hx')
    obtain ⟨ih1, ih2⟩ := ih ht
    simp [List.takeWhile_cons, List.dropWhile_cons, ha, ih1, ih2]

theorem splitScheme_http (dflt rest : List Char) :
    splitScheme dflt ('h' :: 't' :: 't' :: 'p' :: ':' :: rest) =
      (['h', 't', 't', 'p'], rest) := rfl

theorem splitNetloc_app (hl t : List Char) (hh : ∀ c ∈ hl, netlocDelim c = false) :
    splitNetlocPart ('/' :: '/' :: (hl ++ '/' :: t)) = (hl, '/' :: t) := by
  have h := takeWhile_middle (fun c => !netlocDelim c) hl '/' t
    (by intro x hx; simp [hh x hx]) (by simp [netlocDelim])
  simp only [splitNetlocPart]
  rw [h.1, h.2]

theorem splitFrag_app (a f : List Char) (h : '#' ∉ a) :
    splitFrag (a ++ '#' :: f) = (a, f) := by
  simp [splitFrag, splitFirst_app _ _ _ h]

theorem splitFrag_none (a : List Char) (h : '#' ∉ a) : splitFrag a = (a, []) := by
  simp [splitFrag, splitFirst_not_mem _ _ h]

theorem splitQuery_app (a q : List Char) (h : '?' ∉ a) :
    splitQuery (a ++ '?' :: q) = (a, q) := by
  simp [splitQuery, splitFirst_app _ _ _ h]

theorem splitQuery_none (a : List Char) (h : '?' ∉ a) : splitQuery a = (a, []) := by
  simp [splitQuery, splitFirst_not_mem _ _ h]

theorem splitParams_no_semi (u : List Char) (h : ';' ∉ u) :
    splitParams u = (u, []) := by
  unfold splitParams
  cases hsl : splitLast '/' u with
  | none => rw [splitFirst_not_mem _ _ h]
  | some pr =>
    obtain ⟨pre, post⟩ := pr
    have hu := splitLast_sound '/' u pre post hsl
    have hpost : ';' ∉ ('/' :: post) := by
      intro hm
      rcases List.mem_cons.mp hm with hm | hm
      · exact absurd hm (by decide)
      · exact h (by rw [hu]; exact List.mem_append_right _ (List.mem_cons_of_mem _ hm))
    dsimp only
    rw [splitFirst_not_mem _ _ hpost]

theorem pyUrlsplitL_http (dflt hl r : List Char)
    (hh : ∀ c ∈ hl, netlocDelim c = false) (t : List Char) (hr : r = '/' :: t) :
    pyUrlsplitL dflt ('h' :: 't' :: 't' :: 'p' :: ':' :: '/' :: '/' :: (hl ++ r)) =
      ⟨['h', 't', 't', 'p'], hl, (splitQuery (splitFrag r).1).1,
       (splitQuery (splitFrag r).1).2, (splitFrag r).2⟩ := by
  subst hr
  unfold pyUrlsplitL
  rw [splitScheme_http]
  dsimp only
  rw [splitNetloc_app hl t hh]

theorem data_http_pfx : ("http://" : String).data = ['h', 't', 't', 'p', ':', '/', '/'] := rfl

theorem data_qmark : ("?" : String).data = ['?'] := rfl

theorem data_hash : ("#" : String).data = ['#'] := rfl

theorem data_empty : ("" : String).data = [] := rfl

theorem strNe_of_dataNe (s : String) (h : s.data ≠ []) : s ≠ "" := by
  intro he
  rw [he] at h
  exact h rfl

theorem mkHttp_data (h p q f : String) :
    (mkHttp h p q f).data =
      'h' :: 't' :: 't' :: 'p' :: ':' :: '/' :: '/' ::
        (h.data ++ (p.data ++ '?' :: (q.data ++ '#' :: f.data))) := by
  simp [mkHttp, strData_append, data_http_pfx, data_qmark, data_hash,
    List.append_assoc]

theorem mkHttpQ_data (h p q : String) :
    (mkHttpQ h p q).data =
      'h' :: 't' :: 't' :: 'p' :: ':' :: '/' :: '/' ::
        (h.data ++ (p.data ++ '?' :: q.data)) := by
  simp [mkHttpQ, strData_append, data_http_pfx, data_qmark, List.append_assoc]

theorem mkHttpF_data (h p f : String) :
    (mkHttpF h p f).data =
      'h' :: 't' :: 't' :: 'p' :: ':' :: '/' :: '/' ::
        (h.data ++ (p.data ++ '#' :: f.data)) := by
  simp [mkHttpF, strData_append, data_http_pfx, data_hash, List.append_assoc]

theorem mkHttpPlain_data (h p : String) :
    (mkHttpPlain h p).data =
      'h' :: 't' :: 't' :: 'p' :: ':' :: '/' :: '/' :: (h.data ++ p.data) := by
  simp [mkHttpPlain, strData_append, data_http_pfx, List.append_assoc]

theorem pathBits_no_qm (h p q : String) (hb : HttpBits h p q) : '?' ∉ p.data :=
  fun hm => (hb.pathOk _ hm).1 rfl

theorem pathBits_no_hash (h p q : String) (hb : HttpBits h p q) : '#' ∉ p.data :=
  fun hm => (hb.pathOk _ hm).2.1 rfl

theorem pathBits_no_semi (h p q : String) (hb : HttpBits h p q) : ';' ∉ p.data :=
  fun hm => (hb.pathOk _ hm).2.2 rfl

theorem pyUrlsplit_mkHttp (dflt h p q f : String) (hb : HttpBits h p q) :
    pyUrlsplit dflt (mkHttp h p q f) = ⟨"http", h, p, q, f⟩ := by
  obtain ⟨t, hp⟩ := hb.pathSlash
  unfold pyUrlsplit
  rw [mkHttp_data]
  rw [pyUrlsplitL_http dflt.data h.data _ hb.hostOk
      (t ++ '?' :: (q.data ++ '#' :: f.data)) (by rw [hp]; rfl)]
  have hfr : '#' ∉ p.data ++ '?' :: q.data := by
    intro hm
    rcases List.mem_append.mp hm with hm | hm
    · exact pathBits_no_hash h p q hb hm
    · rcases List.mem_cons.mp hm with hm | hm
      · exact absurd hm (by decide)
      · exact hb.queryOk _ hm rfl
  have hassoc : p.data ++ '?' :: (q.data ++ '#' :: f.data) =
      (p.data ++ '?' :: q.data) ++ '#' :: f.data := by
    simp
  rw [hassoc, splitFrag_app _ _ hfr,
      splitQuery_app _ _ (pathBits_no_qm h p q hb)]


theorem pyUrlsplit_mkHttpQ (dflt h p q : String) (hb : HttpBits h p q) :
    pyUrlsplit dflt (mkHttpQ h p q) = ⟨"http", h, p, q, ""⟩ := by
  obtain ⟨t, hp⟩ := hb.pathSlash
  unfold pyUrlsplit
  rw [mkHttpQ_data]
  rw [pyUrlsplitL_http dflt.data h.data _ hb.hostOk (t ++ '?' :: q.data) (by rw [hp]; rfl)]
  have hfr : '#' ∉ p.data ++ '?' :: q.data := by
    intro hm
    rcases List.mem_append.mp hm with hm | hm
    · exact pathBits_no_hash h p q hb hm
    · rcases List.mem_cons.mp hm with hm | hm
      · exact absurd hm (by decide)
      · exact hb.queryOk _ hm rfl
  rw [splitFrag_none _ hfr, splitQuery_app _ _ (pathBits_no_qm h p q hb)]


theorem pyUrlsplit_mkHttpF (dflt h p q f : String) (hb : HttpBits h p q) :
    pyUrlsplit dflt (mkHttpF h p f) = ⟨"http", h, p, "", f⟩ := by
  obtain ⟨t, hp⟩ := hb.pathSlash
  unfold pyUrlsplit
  rw [mkHttpF_data]
  rw [pyUrlsplitL_http dflt.data h.data _ hb.hostOk (t ++ '#' :: f.data) (by rw [hp]; rfl)]
  rw [splitFrag_app _ _ (pathBits_no_hash h p q hb),
      splitQuery_none _ (pathBits_no_qm h p q hb)]


theorem pyUrlsplit_mkHttpPlain (dflt h p q : String) (hb : HttpBits h p q) :
    pyUrlsplit dflt (mkHttpPlain h p) = ⟨"http", h, p, "", ""⟩ := by
  obtain ⟨t, hp⟩ := hb.pathSlash
  unfold pyUrlsplit
  rw [mkHttpPlain_data]
  rw [pyUrlsplitL_http dflt.data h.data _ hb.hostOk t hp]
  rw [splitFrag_none _ (pathBits_no_hash h p q hb),
      splitQuery_none _ (pathBits_no_qm h p q hb)]


theorem pyUrlparse_of_split (dflt url : String) (h p q f : String)
    (hs : pyUrlsplit dflt url = ⟨"http", h, p, q, f⟩) (hsemi : ';' ∉ p.data) :
    pyUrlparse dflt url = ⟨"http", h, p, "", q, f⟩ := by
  unfold pyUrlparse
  rw [hs]
  dsimp only
  rw [if_neg ?_]
  intro hcond
  exact hsemi hcond.1

theorem pyUrlparse_mkHttp (dflt h p q f : String) (hb : HttpBits h p q) :
    pyUrlparse dflt (mkHttp h p q f) = ⟨"http", h, p, "", q, f⟩ :=
  pyUrlparse_of_split dflt _ h p q f (pyUrlsplit_mkHttp dflt h p q f hb)
    (pathBits_no_semi h p q hb)

theorem pyUrlparse_mkHttpQ (dflt h p q : String) (hb : HttpBits h p q) :
    pyUrlparse dflt (mkHttpQ h p q) = ⟨"http", h, p, "", q, ""⟩ :=
  pyUrlparse_of_split dflt _ h p q "" (pyUrlsplit_mkHttpQ dflt h p q hb)
    (pathBits_no_semi h p q hb)

theorem pyUrlparse_mkHttpF (dflt h p q f : String) (hb : HttpBits h p q) :
    pyUrlparse dflt (mkHttpF h p f) = ⟨"http", h, p, "", "", f⟩ :=
  pyUrlparse_of_split dflt _ h p "" f (pyUrlsplit_mkHttpF dflt h p q f hb)
    (pathBits_no_semi h p q hb)

theorem pyUrlparse_mkHttpPlain (dflt h p q : String) (hb : HttpBits h p q) :
    pyUrlparse dflt (mkHttpPlain h p) = ⟨"http", h, p, "", "", ""⟩ :=
  pyUrlparse_of_split dflt _ h p "" "" (pyUrlsplit_mkHttpPlain dflt h p q hb)
    (pathBits_no_semi h p q hb)

theorem data_http4 : ("http" : String).data = ['h', 't', 't', 'p'] := rfl

theorem data_colon : (":" : String).data = [':'] := rfl

theorem data_dslash : ("//" : String).data = ['/', '/'] := rfl

theorem if_bool_false {α : Type} (c : Bool) (h : c = false) (a b : α) :
    (if c = true then a else b) = b := by
  rw [h]
  simp

theorem mkHttp_ne_empty (h p q f : String) : mkHttp h p q f ≠ "" := by
  apply strNe_of_dataNe
  rw [mkHttp_data]
  simp

theorem mkHttpPlain_ne_empty (h p : String) : mkHttpPlain h p ≠ "" := by
  apply strNe_of_dataNe
  rw [mkHttpPlain_data]
  simp

theorem pyUrlunsplit_http (h p q f : String) (hne : h.data ≠ []) (t : List Char)
    (hp : p.data = '/' :: t) :
    pyUrlunsplit ⟨"http", h, p, q, f⟩ =
      (if f ≠ "" then
         (if q ≠ "" then mkHttp h p q f else mkHttpF h p f)
       else
         (if q ≠ "" then mkHttpQ h p q else mkHttpPlain h p)) := by
  unfold pyUrlunsplit
  dsimp only
  have hnes : h ≠ "" := strNe_of_dataNe h hne
  have hpath : ¬(p ≠ "" ∧ p.data.take 1 ≠ ['/']) := by
    intro hcond
    exact hcond.2 (by rw [hp]; rfl)
  rw [if_pos (Or.inl hnes), if_neg hpath,
      if_pos (by decide : ("http" : String) ≠ "")]
  by_cases hf : f ≠ ""
  · rw [if_pos hf, if_pos hf]
    by_cases hq : q ≠ ""
    · rw [if_pos hq, if_pos hq]
      apply strExt
      simp [mkHttp, strData_append, data_http4, data_colon, data_dslash,
        data_http_pfx, data_qmark, data_hash, List.append_assoc]
    · rw [if_neg hq, if_neg hq]
      apply strExt
      simp [mkHttpF, strData_append, data_http4, data_colon, data_dslash,
        data_http_pfx, data_hash, List.append_assoc]
  · rw [if_neg hf, if_neg hf]
    by_cases hq : q ≠ ""
    · rw [if_pos hq, if_pos hq]
      apply strExt
      simp [mkHttpQ, strData_append, data_http4, data_colon, data_dslash,
        data_http_pfx, data_qmark, List.append_assoc]
    · rw [if_neg hq, if_neg hq]
      apply strExt
      simp [mkHttpPlain, strData_append, data_http4, data_colon, data_dslash,
        data_http_pfx, List.append_assoc]

theorem pyUrlunparse_http_noparams (h p q f : String) (hne : h.data ≠ [])
    (t : List Char) (hp : p.data = '/' :: t) :
    pyUrlunparse "http" h p "" q f =
      (if f ≠ "" then
         (if q ≠ "" then mkHttp h p q f else mkHttpF h p f)
       else
         (if q ≠ "" then mkHttpQ h p q else mkHttpPlain h p)) := by
  unfold pyUrlunparse
  rw [if_neg (by simp : ¬ ("" : String) ≠ "")]
  exact pyUrlunsplit_http h p q f hne t hp

theorem clean_unparse (h p q : String) (hb : HttpBits h p q) :
    pyUrlunparse "http" h p "" "" "" = mkHttpPlain h p := by
  obtain ⟨t, hp⟩ := hb.pathSlash
  rw [pyUrlunparse_http_noparams h p "" "" hb.hostNe t hp]
  have hne : ¬ ("" : String) ≠ "" := by simp
  rw [if_neg hne, if_neg hne]

theorem pyUrljoin_abs (h p q f : String) (hb : HttpBits h p q) :
    pyUrljoin "http://a.test/x" (mkHttp h p q f) =
      pyUrlunparse "http" h p "" q f := by
  unfold pyUrljoin
  rw [if_neg (by decide : ¬ ("http://a.test/x" : String) = "")]
  rw [if_neg (mkHttp_ne_empty h p q f)]
  have hbase : pyUrlparse "" "http://a.test/x" =
      ⟨"http", "a.test", "/x", "", "", ""⟩ := by decide
  rw [hbase]
  dsimp only
  rw [pyUrlparse_mkHttp "http" h p q f hb]
  dsimp only
  rw [if_neg ?c1]
  case c1 =>
    intro hor
    rcases hor with hor | hor
    · exact hor rfl
    · exact hor (by decide)
  rw [if_pos ⟨by decide, strNe_of_dataNe h hb.hostNe⟩]

theorem pyUrljoin_abs_plain (h p q : String) (hb : HttpBits h p q) :
    pyUrljoin "http://a.test/x" (mkHttpPlain h p) =
      pyUrlunparse "http" h p "" "" "" := by
  unfold pyUrljoin
  rw [if_neg (by decide : ¬ ("http://a.test/x" : String) = "")]
  rw [if_neg (mkHttpPlain_ne_empty h p)]
  have hbase : pyUrlparse "" "http://a.test/x" =
      ⟨"http", "a.test", "/x", "", "", ""⟩ := by decide
  rw [hbase]
  dsimp only
  rw [pyUrlparse_mkHttpPlain "http" h p q hb]
  dsimp only
  rw [if_neg ?c1]
  case c1 =>
    intro hor
    rcases hor with hor | hor
    · exact hor rfl
    · exact hor (by decide)
  rw [if_pos ⟨by decide, strNe_of_dataNe h hb.hostNe⟩]

theorem tasksCleanHref_mkHttp (h p q f : String) (hb : HttpBits h p q) :
    tasksCleanHref "http://a.test/x" (mkHttp h p q f) = mkHttpPlain h p := by
  obtain ⟨t, hp⟩ := hb.pathSlash
  unfold tasksCleanHref
  dsimp only
  rw [pyUrljoin_abs h p q f hb]
  rw [pyUrlunparse_http_noparams h p q f hb.hostNe t hp]
  by_cases hf : f ≠ ""
  · rw [if_pos hf]
    by_cases hq : q ≠ ""
    · rw [if_pos hq, pyUrlparse_mkHttp "" h p q f hb]
      exact clean_unparse h p q hb
    · rw [if_neg hq, pyUrlparse_mkHttpF "" h p q f hb]
      exact clean_unparse h p q hb
  · rw [if_neg hf]
    by_cases hq : q ≠ ""
    · rw [if_pos hq, pyUrlparse_mkHttpQ "" h p q hb]
      exact clean_unparse h p q hb
    · rw [if_neg hq, pyUrlparse_mkHttpPlain "" h p q hb]
      exact clean_unparse h p q hb

theorem tasksCleanHref_plain (h p q : String) (hb : HttpBits h p q) :
    tasksCleanHref "http://a.test/x" (mkHttpPlain h p) = mkHttpPlain h p := by
  unfold tasksCleanHref
  dsimp only
  rw [pyUrljoin_abs_plain h p q hb, clean_unparse h p q hb,
      pyUrlparse_mkHttpPlain "" h p q hb]
  exact clean_unparse h p q hb

theorem strStarts_mkHttp (h p q f : String) :
    strStarts (mkHttp h p q f) "http://" = true := by
  unfold strStarts
  rw [mkHttp_data, data_http_pfx]
  exact listIsPfx_append ['h', 't', 't', 'p', ':', '/', '/'] _

theorem normalize_frag_insensitive (h p q f1 f2 : String) (hb : HttpBits h p q) :
    normalize_url (mkHttp h p q f1) "http://a.test/x" =
      normalize_url (mkHttp h p q f2) "http://a.test/x" := by
  unfold normalize_url
  have hc1 : (!(strStarts (mkHttp h p q f1) "http://" ||
      strStarts (mkHttp h p q f1) "https://")) = false := by
    rw [strStarts_mkHttp]
    rfl
  have hc2 : (!(strStarts (mkHttp h p q f2) "http://" ||
      strStarts (mkHttp h p q f2) "https://")) = false := by
    rw [strStarts_mkHttp]
    rfl
  rw [if_bool_false _ hc1, if_bool_false _ hc2]
  dsimp only
  rw [pyUrlparse_mkHttp "" h p q f1 hb, pyUrlparse_mkHttp "" h p q f2 hb]

/-- Claim C6 (amended): the Celery task reduces every extracted link to
scheme + host + path, stripping both query and fragment, so links differing
only in query or fragment (or lacking them entirely) all canonicalize to
the same URL. The MPI worker's normalize_url strips only the fragment: it
is insensitive to the fragment part, but it preserves the query string, so
links differing only in their query remain distinct there. -/
theorem c6_canonicalization_amended :
    (∀ (h p q f : String), HttpBits h p q →
       tasksCleanHref "http://a.test/x" (mkHttp h p q f) = mkHttpPlain h p ∧
       tasksCleanHref "http://a.test/x" (mkHttpPlain h p) = mkHttpPlain h p)
    ∧ (∀ (h p q f1 f2 : String), HttpBits h p q →
        normalize_url (mkHttp h p q f1) "http://a.test/x" =
          normalize_url (mkHttp h p q f2) "http://a.test/x")
    ∧ (pyUrlparse ""
        ((normalize_url "http://a.test/p?x=1" "http://a.test/x").getD "")).query =
      "x=1" := by
  refine ⟨?_, ?_, ?_⟩
  · intro h p q f hb
    exact ⟨tasksCleanHref_mkHttp h p q f hb, tasksCleanHref_plain h p q hb⟩
  · intro h p q f1 f2 hb
    exact normalize_frag_insensitive h p q f1 f2 hb
  · decide

theorem c6_canonicalization_amended_witness :
    (tasksCleanHref "http://a.test/x" (mkHttp "a.test" "/p" "x=1" "frag") =
        mkHttpPlain "a.test" "/p" ∧
      tasksCleanHref "http://a.test/x" (mkHttpPlain "a.test" "/p") =
        mkHttpPlain "a.test" "/p") ∧
    normalize_url (mkHttp "a.test" "/p" "x=1" "f1") "http://a.test/x" =
      normalize_url (mkHttp "a.test" "/p" "x=1" "f2") "http://a.test/x" :=
  ⟨c6_canonicalization_amended.1 "a.test" "/p" "x=1" "frag"
     ⟨by decide, by decide, ⟨['p'], rfl⟩, by decide, by decide⟩,
   c6_canonicalization_amended.2.1 "a.test" "/p" "x=1" "f1" "f2"
     ⟨by decide, by decide, ⟨['p'], rfl⟩, by decide, by decide⟩⟩

/-- Claim C6 counterexample: in the MPI worker two in-page links differing
only in their query string do not canonicalize to the same URL -
normalize_url keeps the query. -/
theorem c6_node_keeps_query :
    normalize_url "http://a.test/p?x=1" "http://a.test/x" =
      some "http://a.test/p?x=1" ∧
    normalize_url "http://a.test/p" "http://a.test/x" = some "http://a.test/p" ∧
    ¬ ("http://a.test/p?x=1" : String) = "http://a.test/p" := by
  refine ⟨by decide, by decide, by decide⟩

end WebCrawler



